import Mathlib

/-!
Verification of the route-optimization core of the repository.

This file embeds, as executable Lean definitions, the logic of
`app/integrations/distance_matrix.py` (matrix fetch, per-cell haversine
fallback, batched assembly), `app/optimization/vrp_solver.py` (the VRP
solver wrapper: validation, the pinned depot→waypoint arc, route
extraction), and the zone-grouping / proxy-expansion / response-building
sections of `app/main.py` (`optimize_route`), and proves the spec's
testable properties about them.

External collaborators are modelled as parameters: the Google Distance
Matrix service as a function producing a `DMResponse`, the OR-Tools
search as an optional assignment of `NextVar` values (`none` models
"no solution found"), and the transcendental haversine kernel
(`math.sin`/`cos`/`atan2`/`sqrt`) as an abstract function `hav`
returning kilometres, exactly as `_haversine_distance` does.
-/

namespace Hidalgo

/-! ### Mutable-matrix machinery

Python allocates a rectangular list of zero rows and assigns cells in
nested loops (`distances[i][j] = v`).  A matrix is `List (List α)`, one
assignment is `setCell`, and an assignment loop is a fold over the list
of writes it performs, in order. -/

def getCell {α : Type} (m : List (List α)) (i j : Nat) (d : α) : α :=
  (m.getD i []).getD j d

def setCell {α : Type} (m : List (List α)) (i j : Nat) (v : α) : List (List α) :=
  m.set i ((m.getD i []).set j v)

def writeAll {α : Type} (m : List (List α)) (ops : List (Nat × Nat × α)) : List (List α) :=
  ops.foldl (fun acc op => setCell acc op.1 op.2.1 op.2.2) m

/-- The value left at `(i, j)` by a write sequence that starts from
default `d`: the last write to that cell wins. -/
def lastVal {α : Type} (ops : List (Nat × Nat × α)) (i j : Nat) (d : α) : α :=
  ops.foldl (fun acc op => if op.1 = i ∧ op.2.1 = j then op.2.2 else acc) d

/-- Python `[[0] * c for _ in range(r)]`. -/
def zeros (r c : Nat) : List (List Int) :=
  List.replicate r (List.replicate c 0)

theorem getD_elem {α : Type} (l : List α) (i : Nat) (d : α) : l.getD i d = (l[i]?).getD d := by
  rw [List.getD_eq_getD_get?, List.get?_eq_getElem?]

theorem getD_set {α : Type} (l : List α) (a i : Nat) (x d : α) :
    (l.set a x).getD i d = if a = i ∧ i < l.length then x else l.getD i d := by
  rcases Nat.decEq a i with h | h
  · rw [getD_elem, List.getElem?_set_ne h, ← getD_elem]
    simp [h]
  · subst h
    rw [getD_elem, List.getElem?_set_self', getD_elem]
    by_cases h2 : a < l.length
    · simp [List.getElem?_eq_getElem h2, h2]
    · simp [List.getElem?_eq_none (Nat.not_lt.1 h2), h2]

theorem length_setCell {α : Type} (m : List (List α)) (i j : Nat) (v : α) :
    (setCell m i j v).length = m.length := by
  simp [setCell]

theorem getD_set_row {α : Type} (m : List (List α)) (a i : Nat) (r : List α) :
    (m.set a r).getD i [] = if a = i ∧ i < m.length then r else m.getD i [] :=
  getD_set m a i r []

theorem rowLen_setCell {α : Type} (m : List (List α)) (a b i : Nat) (v : α) :
    ((setCell m a b v).getD i []).length = (m.getD i []).length := by
  rw [setCell, getD_set_row]
  split
  · rename_i h
    simp [h.1]
  · rfl

theorem getCell_setCell {α : Type} (m : List (List α)) (a b i j : Nat) (v d : α)
    (hi : i < m.length) (hj : j < (m.getD i []).length) :
    getCell (setCell m a b v) i j d = if a = i ∧ b = j then v else getCell m i j d := by
  rw [getCell, setCell, getD_set_row]
  rcases Nat.decEq a i with hai | hai
  · rw [if_neg (fun hc => hai hc.1), if_neg (fun hc => hai hc.1)]
    rfl
  · subst hai
    rw [if_pos ⟨rfl, hi⟩, getD_set]
    rcases Nat.decEq b j with hbj | hbj
    · rw [if_neg (fun hc => hbj hc.1), if_neg (fun hc => hbj hc.2)]
      rfl
    · subst hbj
      rw [if_pos ⟨rfl, hj⟩, if_pos ⟨rfl, rfl⟩]

theorem length_writeAll {α : Type} (ops : List (Nat × Nat × α)) (m : List (List α)) :
    (writeAll m ops).length = m.length := by
  induction ops generalizing m with
  | nil => rfl
  | cons op rest ih => rw [writeAll, List.foldl_cons, ← writeAll, ih, length_setCell]

theorem rowLen_writeAll {α : Type} (ops : List (Nat × Nat × α)) (m : List (List α)) (i : Nat) :
    ((writeAll m ops).getD i []).length = (m.getD i []).length := by
  induction ops generalizing m with
  | nil => rfl
  | cons op rest ih => rw [writeAll, List.foldl_cons, ← writeAll, ih, rowLen_setCell]

theorem getCell_writeAll {α : Type} (ops : List (Nat × Nat × α)) (m : List (List α))
    (i j : Nat) (d : α) (hi : i < m.length) (hj : j < (m.getD i []).length) :
    getCell (writeAll m ops) i j d = lastVal ops i j (getCell m i j d) := by
  induction ops generalizing m with
  | nil => rfl
  | cons op rest ih =>
      rw [writeAll, List.foldl_cons, ← writeAll, lastVal, List.foldl_cons, ← lastVal]
      rw [ih (setCell m op.1 op.2.1 op.2.2)
        (by rw [length_setCell]; exact hi) (by rw [rowLen_setCell]; exact hj)]
      rw [getCell_setCell m op.1 op.2.1 i j op.2.2 d hi hj]

theorem lastVal_of_not_mem {α : Type} (ops : List (Nat × Nat × α)) (i j : Nat) (d : α)
    (h : ∀ op ∈ ops, ¬(op.1 = i ∧ op.2.1 = j)) : lastVal ops i j d = d := by
  induction ops generalizing d with
  | nil => rfl
  | cons op rest ih =>
      rw [lastVal, List.foldl_cons, ← lastVal]
      rw [if_neg (h op (List.mem_cons_self op rest))]
      exact ih d fun o ho => h o (List.mem_cons_of_mem op ho)

theorem lastVal_of_uniform {α : Type} (ops : List (Nat × Nat × α)) (i j : Nat) (d v : α)
    (hall : ∀ op ∈ ops, op.1 = i → op.2.1 = j → op.2.2 = v)
    (hex : ∃ op ∈ ops, op.1 = i ∧ op.2.1 = j) : lastVal ops i j d = v := by
  induction ops generalizing d with
  | nil => rcases hex with ⟨op, hmem, _⟩; exact absurd hmem (List.not_mem_nil op)
  | cons op rest ih =>
      rw [lastVal, List.foldl_cons, ← lastVal]
      by_cases hrest : ∃ o ∈ rest, o.1 = i ∧ o.2.1 = j
      · exact ih _ (fun o ho => hall o (List.mem_cons_of_mem op ho)) hrest
      · have hop : op.1 = i ∧ op.2.1 = j := by
          rcases hex with ⟨o, ho, hoij⟩
          rcases List.mem_cons.1 ho with rfl | ho'
          · exact hoij
          · exact absurd ⟨o, ho', hoij⟩ hrest
        rw [if_pos hop]
        have hv : op.2.2 = v := hall op (List.mem_cons_self op rest) hop.1 hop.2
        subst hv
        exact lastVal_of_not_mem rest i j op.2.2 fun o ho => fun hc => hrest ⟨o, ho, hc⟩

theorem getD_replicate {α : Type} (n i : Nat) (x d : α) :
    (List.replicate n x).getD i d = if i < n then x else d := by
  rw [getD_elem, List.getElem?_replicate]
  by_cases h : i < n <;> simp [h]

theorem getCell_zeros (r c i j : Nat) : getCell (zeros r c) i j 0 = 0 := by
  rw [getCell, zeros, getD_replicate]
  by_cases h : i < r
  · rw [if_pos h, getD_replicate]
    by_cases h2 : j < c <;> simp [h2]
  · rw [if_neg h]
    rfl

theorem length_zeros (r c : Nat) : (zeros r c).length = r := by simp [zeros]

theorem rowLen_zeros (r c i : Nat) (hi : i < r) : ((zeros r c).getD i []).length = c := by
  rw [zeros, getD_replicate, if_pos hi]
  simp

/-! ### `app/integrations/distance_matrix.py`

`DistanceMatrixClient.get_distance_matrix` calls the external service and
parses `result["rows"][i]["elements"][j]` into two pre-zeroed matrices;
an element whose `status` is not `"OK"` is replaced cell-by-cell with a
haversine estimate.  The service response is modelled by `DMResponse`;
an element's `distance.value` / `duration.value` (the Python code reads
them with `.get(..., {}).get("value", 0)`) by the two `Int` fields. -/

/-- A coordinate pair `(lat, lng)`. -/
abbrev Loc := ℚ × ℚ

/-- Python `int(x)`: truncation toward zero. -/
def pyInt (q : ℚ) : Int := q.num.tdiv q.den

structure DMElement where
  status : String
  distanceValue : Int
  durationValue : Int
deriving DecidableEq

structure DMResponse where
  rows : List (List DMElement)
deriving DecidableEq

/-- Python `int(self._haversine_distance(...) * 1000)` — km to meters. -/
def fallbackDistance (hav : Loc → Loc → ℚ) (o d : Loc) : Int :=
  pyInt (hav o d * 1000)

/-- Python `int(distances[i][j] / 13.89)` — ~50 km/h average. -/
def fallbackDuration (dist : Int) : Int :=
  pyInt ((dist : ℚ) / (1389 / 100))

/-- The write performed for the element at row `i`, column `j`:
`(i, j, distance, duration)`. -/
def elementOp (hav : Loc → Loc → ℚ) (origins destinations : List Loc)
    (i j : Nat) (el : DMElement) : Nat × Nat × Int × Int :=
  if el.status = "OK" then (i, j, el.distanceValue, el.durationValue)
  else
    let dist := fallbackDistance hav (origins.getD i (0, 0)) (destinations.getD j (0, 0))
    (i, j, dist, fallbackDuration dist)

/-- The loop `for j, element in enumerate(row.get("elements", []))`, with `j`
starting from the accumulator. -/
def rowOps (hav : Loc → Loc → ℚ) (origins destinations : List Loc) (i : Nat) :
    Nat → List DMElement → List (Nat × Nat × Int × Int)
  | _, [] => []
  | j, el :: rest =>
      elementOp hav origins destinations i j el ::
        rowOps hav origins destinations i (j + 1) rest

/-- The loop `for i, row in enumerate(result.get("rows", []))`. -/
def responseOps (hav : Loc → Loc → ℚ) (origins destinations : List Loc) :
    Nat → List (List DMElement) → List (Nat × Nat × Int × Int)
  | _, [] => []
  | i, row :: rest =>
      rowOps hav origins destinations i 0 row ++
        responseOps hav origins destinations (i + 1) rest

structure DMatrices where
  distances : List (List Int)
  durations : List (List Int)
deriving DecidableEq

/-- Method `DistanceMatrixClient.get_distance_matrix`, given the service response. -/
def getDistanceMatrix (hav : Loc → Loc → ℚ) (origins destinations : List Loc)
    (resp : DMResponse) : DMatrices :=
  let ops := responseOps hav origins destinations 0 resp.rows
  { distances := writeAll (zeros origins.length destinations.length)
      (ops.map fun p => (p.1, p.2.1, p.2.2.1))
    durations := writeAll (zeros origins.length destinations.length)
      (ops.map fun p => (p.1, p.2.1, p.2.2.2)) }

/-- Python `range(0, n, batch_size)` with `batch_size = 10`. -/
def blockStarts (n : Nat) : List Nat := (List.range ((n + 9) / 10)).map (· * 10)

/-- The writes of one `(origin-block, destination-block)` request:
`distances[i_global][j_global] = result["distances"][i_local][j_local]`
and the same for durations, fused into `(i, j, dist, dur)` tuples. -/
def blockOps (res : DMatrices) (iS jS ni nj : Nat) : List (Nat × Nat × Int × Int) :=
  (List.range ni).flatMap fun iL =>
    (List.range nj).map fun jL =>
      (iS + iL, jS + jL, getCell res.distances iL jL 0, getCell res.durations iL jL 0)

/-- The writes of the whole batched loop of `get_full_matrix`. -/
def batchOps (hav : Loc → Loc → ℚ) (svc : List Loc → List Loc → DMResponse)
    (locations : List Loc) : List (Nat × Nat × Int × Int) :=
  let n := locations.length
  (blockStarts n).flatMap fun iS =>
    (blockStarts n).flatMap fun jS =>
      let iE := min (iS + 10) n
      let jE := min (jS + 10) n
      let origins := (locations.drop iS).take (iE - iS)
      let destinations := (locations.drop jS).take (jE - jS)
      blockOps (getDistanceMatrix hav origins destinations (svc origins destinations))
        iS jS (iE - iS) (jE - jS)

/-- Method `DistanceMatrixClient.get_full_matrix`: one request when `n <= 10`,
otherwise batch in blocks of 10 and stitch at the global offsets. -/
def getFullMatrix (hav : Loc → Loc → ℚ) (svc : List Loc → List Loc → DMResponse)
    (locations : List Loc) : DMatrices :=
  let n := locations.length
  if n ≤ 10 then getDistanceMatrix hav locations locations (svc locations locations)
  else
    let ops := batchOps hav svc locations
    { distances := writeAll (zeros n n) (ops.map fun p => (p.1, p.2.1, p.2.2.1))
      durations := writeAll (zeros n n) (ops.map fun p => (p.1, p.2.1, p.2.2.2)) }

/-- A response in which every requested cell is present with `"OK"` status
and the element values depend only on the origin-destination pair: the
"no per-cell service failures" regime. -/
def okResponse (dv tv : Loc → Loc → Int) (origins destinations : List Loc) : DMResponse :=
  ⟨origins.map fun o => destinations.map fun d => ⟨"OK", dv o d, tv o d⟩⟩

theorem elementOp_pos (hav : Loc → Loc → ℚ) (origins destinations : List Loc)
    (i j : Nat) (el : DMElement) :
    (elementOp hav origins destinations i j el).1 = i ∧
      (elementOp hav origins destinations i j el).2.1 = j := by
  rw [elementOp]
  split <;> exact ⟨rfl, rfl⟩

theorem rowOps_subset (hav : Loc → Loc → ℚ) (origins destinations : List Loc)
    (i : Nat) (els : List DMElement) (j0 : Nat) (op : Nat × Nat × Int × Int)
    (h : op ∈ rowOps hav origins destinations i j0 els) :
    ∃ k el, els[k]? = some el ∧ op = elementOp hav origins destinations i (j0 + k) el := by
  induction els generalizing j0 with
  | nil => exact absurd h (List.not_mem_nil op)
  | cons el rest ih =>
      rw [rowOps] at h
      rcases List.mem_cons.1 h with rfl | h'
      · exact ⟨0, el, by simp, by rw [Nat.add_zero]⟩
      · rcases ih (j0 + 1) h' with ⟨k, el', hget, hop⟩
        exact ⟨k + 1, el', by simpa using hget, by rw [hop]; ring_nf⟩

theorem mem_rowOps (hav : Loc → Loc → ℚ) (origins destinations : List Loc)
    (i : Nat) (els : List DMElement) (j0 k : Nat) (el : DMElement)
    (hget : els[k]? = some el) :
    elementOp hav origins destinations i (j0 + k) el ∈
      rowOps hav origins destinations i j0 els := by
  induction els generalizing j0 k with
  | nil => simp at hget
  | cons e rest ih =>
      rw [rowOps]
      cases k with
      | zero =>
          rw [List.getElem?_cons_zero, Option.some_inj] at hget
          subst hget
          exact List.mem_cons_self _ _
      | succ k' =>
          rw [List.getElem?_cons_succ] at hget
          have := ih (j0 + 1) k' hget
          rw [show j0 + 1 + k' = j0 + (k' + 1) by ring] at this
          exact List.mem_cons_of_mem _ this

theorem responseOps_subset (hav : Loc → Loc → ℚ) (origins destinations : List Loc)
    (rows : List (List DMElement)) (i0 : Nat) (op : Nat × Nat × Int × Int)
    (h : op ∈ responseOps hav origins destinations i0 rows) :
    ∃ k r j el, rows[k]? = some r ∧ r[j]? = some el ∧
      op = elementOp hav origins destinations (i0 + k) j el := by
  induction rows generalizing i0 with
  | nil => exact absurd h (List.not_mem_nil op)
  | cons row rest ih =>
      rw [responseOps] at h
      rcases List.mem_append.1 h with h' | h'
      · rcases rowOps_subset hav origins destinations i0 row 0 op h' with ⟨j, el, hget, hop⟩
        exact ⟨0, row, 0 + j, el, by simp, by simpa using hget, by rw [hop, Nat.add_zero]⟩
      · rcases ih (i0 + 1) h' with ⟨k, r, j, el, hr, hel, hop⟩
        exact ⟨k + 1, r, j, el, by simpa using hr, hel,
          by rw [hop, show i0 + 1 + k = i0 + (k + 1) by ring]⟩

theorem mem_responseOps (hav : Loc → Loc → ℚ) (origins destinations : List Loc)
    (rows : List (List DMElement)) (i0 k j : Nat) (r : List DMElement) (el : DMElement)
    (hr : rows[k]? = some r) (hel : r[j]? = some el) :
    elementOp hav origins destinations (i0 + k) j el ∈
      responseOps hav origins destinations i0 rows := by
  induction rows generalizing i0 k with
  | nil => simp at hr
  | cons row rest ih =>
      rw [responseOps]
      cases k with
      | zero =>
          rw [List.getElem?_cons_zero, Option.some_inj] at hr
          subst hr
          refine List.mem_append.2 (Or.inl ?_)
          have := mem_rowOps hav origins destinations i0 row 0 j el hel
          simpa using this
      | succ k' =>
          rw [List.getElem?_cons_succ] at hr
          have := ih (i0 + 1) k' hr
          rw [show i0 + 1 + k' = i0 + (k' + 1) by ring] at this
          exact List.mem_append.2 (Or.inr this)

/-- If an element is present in the response at `(i, j)` and that cell is
inside the requested `origins × destinations` rectangle, both parsed
matrices hold exactly the values of that element's write. -/
theorem getDistanceMatrix_cell (hav : Loc → Loc → ℚ) (origins destinations : List Loc)
    (resp : DMResponse) (i j : Nat) (el : DMElement)
    (hi : i < origins.length) (hj : j < destinations.length)
    (hel : (resp.rows.getD i [])[j]? = some el) :
    getCell (getDistanceMatrix hav origins destinations resp).distances i j 0 =
        (elementOp hav origins destinations i j el).2.2.1 ∧
      getCell (getDistanceMatrix hav origins destinations resp).durations i j 0 =
        (elementOp hav origins destinations i j el).2.2.2 := by
  have hrowsi : i < resp.rows.length := by
    by_contra hc
    rw [getD_elem, List.getElem?_eq_none (Nat.not_lt.1 hc)] at hel
    simp at hel
  have hrow : resp.rows[i]? = some (resp.rows.getD i []) := by
    rw [getD_elem, List.getElem?_eq_getElem hrowsi]
    simp
  have hmem := mem_responseOps hav origins destinations resp.rows 0 i j
    (resp.rows.getD i []) el hrow hel
  rw [Nat.zero_add] at hmem
  have huniq : ∀ op ∈ responseOps hav origins destinations 0 resp.rows,
      op.1 = i → op.2.1 = j → op = elementOp hav origins destinations i j el := by
    intro op hop h1 h2
    rcases responseOps_subset hav origins destinations resp.rows 0 op hop with
      ⟨k, r, j', el', hr, hel', hopEq⟩
    have hpos := elementOp_pos hav origins destinations (0 + k) j' el'
    have hk : 0 + k = i := by rw [hopEq] at h1; rw [← h1, hpos.1]
    have hj' : j' = j := by rw [hopEq] at h2; rw [← h2, hpos.2]
    subst hj'
    rw [Nat.zero_add] at hk
    subst hk
    rw [hrow, Option.some_inj] at hr
    subst hr
    rw [hel, Option.some_inj] at hel'
    subst hel'
    rw [hopEq, Nat.zero_add]
  constructor
  · rw [getDistanceMatrix]
    rw [getCell_writeAll _ _ i j 0 (by rw [length_zeros]; exact hi)
      (by rw [rowLen_zeros _ _ _ hi]; exact hj), getCell_zeros]
    apply lastVal_of_uniform
    · intro op hop h1 h2
      rcases List.mem_map.1 hop with ⟨p, hp, rfl⟩
      rw [huniq p hp h1 h2]
    · refine ⟨_, List.mem_map.2 ⟨_, hmem, rfl⟩, ?_⟩
      have hpos := elementOp_pos hav origins destinations i j el
      exact ⟨hpos.1, hpos.2⟩
  · rw [getDistanceMatrix]
    rw [getCell_writeAll _ _ i j 0 (by rw [length_zeros]; exact hi)
      (by rw [rowLen_zeros _ _ _ hi]; exact hj), getCell_zeros]
    apply lastVal_of_uniform
    · intro op hop h1 h2
      rcases List.mem_map.1 hop with ⟨p, hp, rfl⟩
      rw [huniq p hp h1 h2]
    · refine ⟨_, List.mem_map.2 ⟨_, hmem, rfl⟩, ?_⟩
      have hpos := elementOp_pos hav origins destinations i j el
      exact ⟨hpos.1, hpos.2⟩

/-- A cell whose row or element is absent from the response is never
written: it keeps its zero initialisation. -/
theorem getDistanceMatrix_cell_absent (hav : Loc → Loc → ℚ)
    (origins destinations : List Loc) (resp : DMResponse) (i j : Nat)
    (hi : i < origins.length) (hj : j < destinations.length)
    (hnone : (resp.rows.getD i [])[j]? = none) :
    getCell (getDistanceMatrix hav origins destinations resp).distances i j 0 = 0 ∧
      getCell (getDistanceMatrix hav origins destinations resp).durations i j 0 = 0 := by
  have hnw : ∀ op ∈ responseOps hav origins destinations 0 resp.rows,
      ¬(op.1 = i ∧ op.2.1 = j) := by
    rintro op hop ⟨h1, h2⟩
    rcases responseOps_subset hav origins destinations resp.rows 0 op hop with
      ⟨k, r, j', el', hr, hel', hopEq⟩
    have hpos := elementOp_pos hav origins destinations (0 + k) j' el'
    have hk : k = i := by rw [hopEq] at h1; rw [← h1, hpos.1, Nat.zero_add]
    have hj' : j' = j := by rw [hopEq] at h2; rw [← h2, hpos.2]
    rw [hk] at hr
    rw [hj'] at hel'
    have hgd : resp.rows.getD i [] = r := by
      rw [getD_elem, hr]
      rfl
    rw [hgd, hel'] at hnone
    exact Option.some_ne_none el' hnone
  constructor
  · rw [getDistanceMatrix]
    rw [getCell_writeAll _ _ i j 0 (by rw [length_zeros]; exact hi)
      (by rw [rowLen_zeros _ _ _ hi]; exact hj), getCell_zeros]
    apply lastVal_of_not_mem
    intro op hop
    rcases List.mem_map.1 hop with ⟨p, hp, rfl⟩
    exact hnw p hp
  · rw [getDistanceMatrix]
    rw [getCell_writeAll _ _ i j 0 (by rw [length_zeros]; exact hi)
      (by rw [rowLen_zeros _ _ _ hi]; exact hj), getCell_zeros]
    apply lastVal_of_not_mem
    intro op hop
    rcases List.mem_map.1 hop with ⟨p, hp, rfl⟩
    exact hnw p hp

theorem getD_drop_take {α : Type} (l : List α) (a b k : Nat) (x : α)
    (hk : k < b) (_hak : a + k < l.length) :
    ((l.drop a).take b).getD k x = l.getD (a + k) x := by
  rw [getD_elem, List.getElem?_take_of_lt hk, List.getElem?_drop, getD_elem]

theorem length_drop_take {α : Type} (l : List α) (a b : Nat) :
    ((l.drop a).take b).length = min b (l.length - a) := by
  simp

/-- In the all-`"OK"` regime the parsed matrices are exactly the element
values at the requested coordinates. -/
theorem getDistanceMatrix_ok_cell (hav : Loc → Loc → ℚ) (dv tv : Loc → Loc → Int)
    (origins destinations : List Loc) (i j : Nat)
    (hi : i < origins.length) (hj : j < destinations.length) :
    getCell (getDistanceMatrix hav origins destinations
        (okResponse dv tv origins destinations)).distances i j 0 =
      dv (origins.getD i (0, 0)) (destinations.getD j (0, 0)) ∧
    getCell (getDistanceMatrix hav origins destinations
        (okResponse dv tv origins destinations)).durations i j 0 =
      tv (origins.getD i (0, 0)) (destinations.getD j (0, 0)) := by
  have hoi : origins.getD i (0, 0) = origins[i] := by
    rw [getD_elem, List.getElem?_eq_getElem hi]
    rfl
  have hdj : destinations.getD j (0, 0) = destinations[j] := by
    rw [getD_elem, List.getElem?_eq_getElem hj]
    rfl
  have hel : ((okResponse dv tv origins destinations).rows.getD i [])[j]? =
      some ⟨"OK", dv (origins.getD i (0, 0)) (destinations.getD j (0, 0)),
        tv (origins.getD i (0, 0)) (destinations.getD j (0, 0))⟩ := by
    rw [okResponse, getD_elem, List.getElem?_map, List.getElem?_eq_getElem hi]
    rw [Option.map_some', Option.getD_some, List.getElem?_map, List.getElem?_eq_getElem hj]
    rw [Option.map_some', hoi, hdj]
  have h := getDistanceMatrix_cell hav origins destinations
    (okResponse dv tv origins destinations) i j _ hi hj hel
  rw [elementOp] at h
  simpa using h

theorem blockStarts_cover (n i : Nat) (h : i < n) :
    (i / 10 * 10) ∈ blockStarts n ∧ i - i / 10 * 10 < min (i / 10 * 10 + 10) n - i / 10 * 10 := by
  have h1 : i / 10 * 10 ≤ i := Nat.div_mul_le_self i 10
  have h2 : i < i / 10 * 10 + 10 := by
    have h3 := Nat.div_add_mod i 10
    have hm : i % 10 < 10 := Nat.mod_lt i (by norm_num)
    omega
  constructor
  · rw [blockStarts]
    refine List.mem_map.2 ⟨i / 10, List.mem_range.2 ?_, rfl⟩
    have h4 := (Nat.le_div_iff_mul_le (k := 10) (by norm_num)).2
      (show (i / 10 + 1) * 10 ≤ n + 9 by omega)
    omega
  · omega

/-- Every write of the batched loop carries, at global cell `(i, j)`, the
service value for the pair `(locations[i], locations[j])` — in the
all-`"OK"` regime. -/
theorem batchOps_value (hav : Loc → Loc → ℚ) (dv tv : Loc → Loc → Int)
    (locations : List Loc) (op : Nat × Nat × Int × Int)
    (hop : op ∈ batchOps hav (okResponse dv tv) locations)
    (hi : op.1 < locations.length) (hj : op.2.1 < locations.length) :
    op.2.2.1 = dv (locations.getD op.1 (0, 0)) (locations.getD op.2.1 (0, 0)) ∧
      op.2.2.2 = tv (locations.getD op.1 (0, 0)) (locations.getD op.2.1 (0, 0)) := by
  rw [batchOps] at hop
  rcases List.mem_flatMap.1 hop with ⟨iS, hiS, hop1⟩
  rcases List.mem_flatMap.1 hop1 with ⟨jS, hjS, hop2⟩
  rw [blockOps] at hop2
  rcases List.mem_flatMap.1 hop2 with ⟨iL, hiL, hop3⟩
  rcases List.mem_map.1 hop3 with ⟨jL, hjL, rfl⟩
  rw [List.mem_range] at hiL hjL
  set n := locations.length with hn
  set iE := min (iS + 10) n with hiE
  set jE := min (jS + 10) n with hjE
  set origins := (locations.drop iS).take (iE - iS) with horig
  set destinations := (locations.drop jS).take (jE - jS) with hdest
  have holen : origins.length = iE - iS := by
    rw [horig, length_drop_take]
    omega
  have hdlen : destinations.length = jE - jS := by
    rw [hdest, length_drop_take]
    omega
  have hcell := getDistanceMatrix_ok_cell hav dv tv origins destinations iL jL
    (by omega) (by omega)
  have hogd : origins.getD iL (0, 0) = locations.getD (iS + iL) (0, 0) :=
    getD_drop_take locations iS (iE - iS) iL (0, 0) hiL (by omega)
  have hdgd : destinations.getD jL (0, 0) = locations.getD (jS + jL) (0, 0) :=
    getD_drop_take locations jS (jE - jS) jL (0, 0) hjL (by omega)
  rw [hogd, hdgd] at hcell
  exact ⟨hcell.1, hcell.2⟩

theorem batchOps_exists (hav : Loc → Loc → ℚ) (dv tv : Loc → Loc → Int)
    (locations : List Loc) (i j : Nat)
    (hi : i < locations.length) (hj : j < locations.length) :
    ∃ op ∈ batchOps hav (okResponse dv tv) locations, op.1 = i ∧ op.2.1 = j := by
  set n := locations.length with hn
  obtain ⟨hiS, hiL⟩ := blockStarts_cover n i hi
  obtain ⟨hjS, hjL⟩ := blockStarts_cover n j hj
  set iS := i / 10 * 10 with hiSdef
  set jS := j / 10 * 10 with hjSdef
  have hiSle : iS ≤ i := Nat.div_mul_le_self i 10
  have hjSle : jS ≤ j := Nat.div_mul_le_self j 10
  have hmem : ((iS + (i - iS), jS + (j - jS),
      getCell (getDistanceMatrix hav ((locations.drop iS).take (min (iS + 10) n - iS))
          ((locations.drop jS).take (min (jS + 10) n - jS))
          (okResponse dv tv ((locations.drop iS).take (min (iS + 10) n - iS))
            ((locations.drop jS).take (min (jS + 10) n - jS)))).distances (i - iS) (j - jS) 0,
      getCell (getDistanceMatrix hav ((locations.drop iS).take (min (iS + 10) n - iS))
          ((locations.drop jS).take (min (jS + 10) n - jS))
          (okResponse dv tv ((locations.drop iS).take (min (iS + 10) n - iS))
            ((locations.drop jS).take (min (jS + 10) n - jS)))).durations (i - iS) (j - jS) 0) :
        Nat × Nat × Int × Int) ∈ batchOps hav (okResponse dv tv) locations := by
    rw [batchOps]
    refine List.mem_flatMap.2 ⟨iS, hiS, ?_⟩
    refine List.mem_flatMap.2 ⟨jS, hjS, ?_⟩
    rw [blockOps]
    refine List.mem_flatMap.2 ⟨i - iS, List.mem_range.2 hiL, ?_⟩
    exact List.mem_map.2 ⟨j - jS, List.mem_range.2 hjL, rfl⟩
  exact ⟨_, hmem, by show iS + (i - iS) = i; omega, by show jS + (j - jS) = j; omega⟩

/-- C6: for more than 10 locations, the batched-and-stitched full matrix
agrees cell-for-cell (distances and durations) with the matrix of a
single unbatched request over the same locations, when every cell of
every service response is an `"OK"` element whose values depend only on
the origin-destination pair. -/
theorem getFullMatrix_batched_eq_unbatched (hav : Loc → Loc → ℚ) (dv tv : Loc → Loc → Int)
    (locations : List Loc) (hn : 10 < locations.length) (i j : Nat)
    (hi : i < locations.length) (hj : j < locations.length) :
    getCell (getFullMatrix hav (okResponse dv tv) locations).distances i j 0 =
      getCell (getDistanceMatrix hav locations locations
        (okResponse dv tv locations locations)).distances i j 0 ∧
    getCell (getFullMatrix hav (okResponse dv tv) locations).durations i j 0 =
      getCell (getDistanceMatrix hav locations locations
        (okResponse dv tv locations locations)).durations i j 0 := by
  have hunb := getDistanceMatrix_ok_cell hav dv tv locations locations i j hi hj
  have hfull : getFullMatrix hav (okResponse dv tv) locations =
      { distances := writeAll (zeros locations.length locations.length)
          ((batchOps hav (okResponse dv tv) locations).map fun p => (p.1, p.2.1, p.2.2.1))
        durations := writeAll (zeros locations.length locations.length)
          ((batchOps hav (okResponse dv tv) locations).map fun p => (p.1, p.2.1, p.2.2.2)) } := by
    rw [getFullMatrix, if_neg (by omega)]
  rw [hfull, hunb.1, hunb.2]
  obtain ⟨opx, hopx, hx1, hx2⟩ := batchOps_exists hav dv tv locations i j hi hj
  constructor
  · rw [getCell_writeAll _ _ i j 0 (by rw [length_zeros]; exact hi)
      (by rw [rowLen_zeros _ _ _ hi]; exact hj), getCell_zeros]
    apply lastVal_of_uniform
    · intro op hop h1 h2
      rcases List.mem_map.1 hop with ⟨p, hp, rfl⟩
      have hv := batchOps_value hav dv tv locations p hp (by rw [show p.1 = i from h1]; exact hi)
        (by rw [show p.2.1 = j from h2]; exact hj)
      rw [show p.1 = i from h1, show p.2.1 = j from h2] at hv
      exact hv.1
    · exact ⟨_, List.mem_map.2 ⟨opx, hopx, rfl⟩, hx1, hx2⟩
  · rw [getCell_writeAll _ _ i j 0 (by rw [length_zeros]; exact hi)
      (by rw [rowLen_zeros _ _ _ hi]; exact hj), getCell_zeros]
    apply lastVal_of_uniform
    · intro op hop h1 h2
      rcases List.mem_map.1 hop with ⟨p, hp, rfl⟩
      have hv := batchOps_value hav dv tv locations p hp (by rw [show p.1 = i from h1]; exact hi)
        (by rw [show p.2.1 = j from h2]; exact hj)
      rw [show p.1 = i from h1, show p.2.1 = j from h2] at hv
      exact hv.2
    · exact ⟨_, List.mem_map.2 ⟨opx, hopx, rfl⟩, hx1, hx2⟩

/-- C7: an origin-destination element present with non-`"OK"` status is
replaced — in exactly its own cell — by the haversine distance in integer
meters and a duration of that distance divided by 13.89 m/s, while a
present `"OK"` element keeps its fetched distance and duration values. -/
theorem dm_fallback_per_cell (hav : Loc → Loc → ℚ) (origins destinations : List Loc)
    (resp : DMResponse) (i j : Nat) (el : DMElement)
    (hi : i < origins.length) (hj : j < destinations.length)
    (hel : (resp.rows.getD i [])[j]? = some el) :
    (el.status ≠ "OK" →
      getCell (getDistanceMatrix hav origins destinations resp).distances i j 0 =
        fallbackDistance hav (origins.getD i (0, 0)) (destinations.getD j (0, 0)) ∧
      getCell (getDistanceMatrix hav origins destinations resp).durations i j 0 =
        fallbackDuration (fallbackDistance hav (origins.getD i (0, 0))
          (destinations.getD j (0, 0)))) ∧
    (el.status = "OK" →
      getCell (getDistanceMatrix hav origins destinations resp).distances i j 0 =
        el.distanceValue ∧
      getCell (getDistanceMatrix hav origins destinations resp).durations i j 0 =
        el.durationValue) := by
  have h := getDistanceMatrix_cell hav origins destinations resp i j el hi hj hel
  rw [elementOp] at h
  constructor
  · intro hst
    rw [if_neg hst] at h
    exact h
  · intro hst
    rw [if_pos hst] at h
    exact h

/-- C10: a cell whose row or element is entirely absent from the service
response keeps its zero initialisation — the haversine fallback is never
applied to it — and the returned matrices still have full
`origins × destinations` shape. -/
theorem dm_absent_cell_zero (hav : Loc → Loc → ℚ) (origins destinations : List Loc)
    (resp : DMResponse) (i j : Nat)
    (hi : i < origins.length) (hj : j < destinations.length)
    (hnone : (resp.rows.getD i [])[j]? = none) :
    getCell (getDistanceMatrix hav origins destinations resp).distances i j 0 = 0 ∧
    getCell (getDistanceMatrix hav origins destinations resp).durations i j 0 = 0 ∧
    (getDistanceMatrix hav origins destinations resp).distances.length = origins.length ∧
    ((getDistanceMatrix hav origins destinations resp).distances.getD i []).length =
      destinations.length ∧
    (getDistanceMatrix hav origins destinations resp).durations.length = origins.length ∧
    ((getDistanceMatrix hav origins destinations resp).durations.getD i []).length =
      destinations.length := by
  have h := getDistanceMatrix_cell_absent hav origins destinations resp i j hi hj hnone
  refine ⟨h.1, h.2, ?_, ?_, ?_, ?_⟩
  · rw [getDistanceMatrix, length_writeAll, length_zeros]
  · rw [getDistanceMatrix, rowLen_writeAll, rowLen_zeros _ _ _ hi]
  · rw [getDistanceMatrix, length_writeAll, length_zeros]
  · rw [getDistanceMatrix, rowLen_writeAll, rowLen_zeros _ _ _ hi]

/-! Concrete example inputs used by witnesses. -/

def exHav : Loc → Loc → ℚ := fun _ _ => 5

def exOrigins : List Loc := [(0, 0), (1, 1)]

def exDestinations : List Loc := [(0, 0), (2, 2)]

def exResp : DMResponse :=
  ⟨[[⟨"OK", 100, 10⟩, ⟨"ZERO_RESULTS", 0, 0⟩], [⟨"OK", 7, 8⟩, ⟨"OK", 9, 11⟩]]⟩

def exRespShort : DMResponse := ⟨[[⟨"OK", 100, 10⟩]]⟩

def exLocs11 : List Loc := List.replicate 11 ((0 : ℚ), (0 : ℚ))

/-- Witness for C6 at 11 locations, cell `(0, 1)`. -/
theorem getFullMatrix_batched_eq_unbatched_witness :
    getCell (getFullMatrix exHav (okResponse (fun _ _ => 3) (fun _ _ => 4))
        exLocs11).distances 0 1 0 =
      getCell (getDistanceMatrix exHav exLocs11 exLocs11
        (okResponse (fun _ _ => 3) (fun _ _ => 4) exLocs11 exLocs11)).distances 0 1 0 ∧
    getCell (getFullMatrix exHav (okResponse (fun _ _ => 3) (fun _ _ => 4))
        exLocs11).durations 0 1 0 =
      getCell (getDistanceMatrix exHav exLocs11 exLocs11
        (okResponse (fun _ _ => 3) (fun _ _ => 4) exLocs11 exLocs11)).durations 0 1 0 :=
  getFullMatrix_batched_eq_unbatched exHav (fun _ _ => 3) (fun _ _ => 4) exLocs11
    (by decide) 0 1 (by decide) (by decide)

/-- Witness for C7: the `"ZERO_RESULTS"` element at `(0, 1)` is replaced by
the fallback and the `"OK"` element at `(1, 0)` keeps its fetched values. -/
theorem dm_fallback_per_cell_witness :
    (getCell (getDistanceMatrix exHav exOrigins exDestinations exResp).distances 0 1 0 =
        fallbackDistance exHav (exOrigins.getD 0 (0, 0)) (exDestinations.getD 1 (0, 0)) ∧
      getCell (getDistanceMatrix exHav exOrigins exDestinations exResp).durations 0 1 0 =
        fallbackDuration (fallbackDistance exHav (exOrigins.getD 0 (0, 0))
          (exDestinations.getD 1 (0, 0)))) ∧
    (getCell (getDistanceMatrix exHav exOrigins exDestinations exResp).distances 1 0 0 = 7 ∧
      getCell (getDistanceMatrix exHav exOrigins exDestinations exResp).durations 1 0 0 = 8) :=
  ⟨(dm_fallback_per_cell exHav exOrigins exDestinations exResp 0 1 ⟨"ZERO_RESULTS", 0, 0⟩
      (by decide) (by decide) (by decide)).1 (by decide),
    (dm_fallback_per_cell exHav exOrigins exDestinations exResp 1 0 ⟨"OK", 7, 8⟩
      (by decide) (by decide) (by decide)).2 rfl⟩

/-- Witness for C10: cell `(1, 1)` is absent from the one-row response and
stays zero. -/
theorem dm_absent_cell_zero_witness :
    getCell (getDistanceMatrix exHav exOrigins exDestinations exRespShort).distances 1 1 0 = 0 ∧
    getCell (getDistanceMatrix exHav exOrigins exDestinations exRespShort).durations 1 1 0 = 0 ∧
    (getDistanceMatrix exHav exOrigins exDestinations exRespShort).distances.length =
      exOrigins.length ∧
    ((getDistanceMatrix exHav exOrigins exDestinations exRespShort).distances.getD 1 []).length =
      exDestinations.length ∧
    (getDistanceMatrix exHav exOrigins exDestinations exRespShort).durations.length =
      exOrigins.length ∧
    ((getDistanceMatrix exHav exOrigins exDestinations exRespShort).durations.getD 1 []).length =
      exDestinations.length :=
  dm_absent_cell_zero exHav exOrigins exDestinations exRespShort 1 1
    (by decide) (by decide) (by decide)

/-! ### `app/optimization/vrp_solver.py`

`VRPSolver.solve` builds `all_nodes = [depot] + [waypoint?] + deliveries`,
validates `len(distance_matrix) == num_nodes`, and runs the OR-Tools
search.  The search is modelled by an `Option (Nat → Nat)` parameter:
`none` when `routing.SolveWithParameters` returns no solution, and
`some nxt` giving the solution's `NextVar` values over the index space
`0 .. num_nodes` (index `num_nodes` is the vehicle's end index, which
`IndexToNode` maps back to the depot node `0`).  The hard constraint of
lines 152-163 (`routing.NextVar(0) == 1`) means any assignment the
search can return satisfies `nxt 0 = 1`; theorems take that as a
hypothesis.

Before the validation, the debug statement at line 103 evaluates
`distance_matrix[0][0]` whenever the matrix is non-empty; for a
non-empty matrix whose first row is empty this raises `IndexError`
before any result is produced.  `solve` therefore returns
`Option OptimizationResult`, with `none` for that raised exception. -/

structure DeliveryNode where
  id : String
  name : String
  lat : ℚ
  lng : ℚ
  is_depot : Bool := false
  is_security_waypoint : Bool := false
deriving DecidableEq, Repr

instance : Inhabited DeliveryNode := ⟨⟨"", "", 0, 0, false, false⟩⟩

structure OptimizationResult where
  success : Bool
  message : String
  ordered_nodes : List DeliveryNode
  total_distance_meters : Int
  total_time_seconds : Int
  route_sequence : List Nat
deriving DecidableEq

def allNodes (depot : DeliveryNode) (securityWaypoint : Option DeliveryNode)
    (deliveryNodes : List DeliveryNode) : List DeliveryNode :=
  [depot] ++ (match securityWaypoint with | some w => [w] | none => []) ++ deliveryNodes

/-- Mapping `manager.IndexToNode`: node indices are themselves, the end index is
the depot node `0`. -/
def indexToNode (numNodes idx : Nat) : Nat := if idx < numNodes then idx else 0

/-- The `while not routing.IsEnd(index)` extraction loop: collects the
route sequence and accumulates `GetArcCostForVehicle(previous, index)`
via the registered distance callback.  Structurally recursive on a fuel
of `numNodes + 1`, enough for any solution the search returns. -/
def extractLoop (nxt : Nat → Nat) (m : List (List Int)) (numNodes : Nat) :
    Nat → Nat → List Nat × Int
  | 0, _ => ([], 0)
  | fuel + 1, idx =>
      if idx < numNodes then
        let rest := extractLoop nxt m numNodes fuel (nxt idx)
        (idx :: rest.1,
          getCell m (indexToNode numNodes idx) (indexToNode numNodes (nxt idx)) 0 + rest.2)
      else ([], 0)

/-- An assignment the routing model could actually return: following
`NextVar` from the start visits every node exactly once. -/
def feasibleAssignment (numNodes : Nat) (nxt : Nat → Nat) : Prop :=
  (extractLoop nxt [] numNodes (numNodes + 1) 0).1.Perm (List.range numNodes)

/-- Method `VRPSolver.solve`.  `searchResult` stands for
`routing.SolveWithParameters(search_parameters)`.  The result is `none`
when the debug print at line 103 raises (non-empty matrix, empty first
row), otherwise the returned `OptimizationResult`. -/
def solve (depot : DeliveryNode) (securityWaypoint : Option DeliveryNode)
    (deliveryNodes : List DeliveryNode) (distanceMatrix : List (List Int))
    (searchResult : Option (Nat → Nat)) : Option OptimizationResult :=
  let all := allNodes depot securityWaypoint deliveryNodes
  let numNodes := all.length
  if distanceMatrix.length ≠ 0 ∧ (distanceMatrix.getD 0 []).length = 0 then none
  else if distanceMatrix.length ≠ numNodes then
    some ⟨false, "Error interno: Matriz de distancias incorrecta", [], 0, 0, []⟩
  else if numNodes < 2 then
    some ⟨false, "No hay suficientes nodos para optimizar", [], 0, 0, []⟩
  else
    match searchResult with
    | none => some ⟨false, "No se encontró solución óptima", [], 0, 0, []⟩
    | some nxt =>
        let ext := extractLoop nxt distanceMatrix numNodes (numNodes + 1) 0
        let orderedNodes := ext.1.map fun k => all.getD k depot
        some ⟨true, "Ruta optimizada con " ++ toString orderedNodes.length ++ " paradas",
          orderedNodes, ext.2, pyInt ((ext.2 : ℚ) / (1389 / 100)), ext.1 ++ [0]⟩

/-- The distance callback `distance_matrix[from_node][to_node]` as a
partial lookup: `none` when the Python indexing would raise. -/
def distanceCallbackLookup (m : List (List Int)) (i j : Nat) : Option Int :=
  (m[i]?).bind fun r => r[j]?

theorem allNodes_waypoint_length (depot w : DeliveryNode) (ds : List DeliveryNode) :
    (allNodes depot (some w) ds).length = ds.length + 2 := by
  simp [allNodes]

theorem extractLoop_first_two (nxt : Nat → Nat) (m : List (List Int)) (k : Nat)
    (hc : nxt 0 = 1) :
    (extractLoop nxt m (k + 2) (k + 2 + 1) 0).1 =
      0 :: 1 :: (extractLoop nxt m (k + 2) (k + 1) (nxt 1)).1 := by
  rw [extractLoop, if_pos (by omega), hc]
  show 0 :: (extractLoop nxt m (k + 2) (k + 2) 1).1 =
    0 :: 1 :: (extractLoop nxt m (k + 2) (k + 1) (nxt 1)).1
  rw [extractLoop, if_pos (by omega)]

/-- C1: whenever a waypoint is present and the search returns a solution
(necessarily satisfying the pinned-arc constraint `nxt 0 = 1`), the
returned ordered node list has the depot at position 0 and the security
waypoint at position 1. -/
theorem solve_waypoint_first (depot w : DeliveryNode) (deliveryNodes : List DeliveryNode)
    (m : List (List Int)) (nxt : Nat → Nat) (res : OptimizationResult)
    (hc : nxt 0 = 1)
    (hres : solve depot (some w) deliveryNodes m (some nxt) = some res)
    (hok : res.success = true) :
    res.ordered_nodes[0]? = some depot ∧ res.ordered_nodes[1]? = some w := by
  rw [solve] at hres
  simp only [allNodes_waypoint_length] at hres
  by_cases hdbg : m.length ≠ 0 ∧ (m.getD 0 []).length = 0
  · rw [if_pos hdbg] at hres
    exact absurd hres (by simp)
  rw [if_neg hdbg] at hres
  by_cases hmm : m.length ≠ deliveryNodes.length + 2
  · rw [if_pos hmm] at hres
    rw [Option.some_inj] at hres
    rw [← hres] at hok
    simp at hok
  rw [if_neg hmm] at hres
  rw [if_neg (by omega)] at hres
  rw [Option.some_inj] at hres
  rw [extractLoop_first_two nxt m deliveryNodes.length hc] at hres
  have hget0 : (allNodes depot (some w) deliveryNodes).getD 0 depot = depot := rfl
  have hget1 : (allNodes depot (some w) deliveryNodes).getD 1 depot = w := rfl
  rw [← hres]
  constructor
  · show ((0 :: 1 :: (extractLoop nxt m (deliveryNodes.length + 2)
        (deliveryNodes.length + 1) (nxt 1)).1).map
          fun k => (allNodes depot (some w) deliveryNodes).getD k depot)[0]? = some depot
    rw [List.map_cons, List.getElem?_cons_zero, hget0]
  · show ((0 :: 1 :: (extractLoop nxt m (deliveryNodes.length + 2)
        (deliveryNodes.length + 1) (nxt 1)).1).map
          fun k => (allNodes depot (some w) deliveryNodes).getD k depot)[1]? = some w
    rw [List.map_cons, List.map_cons, List.getElem?_cons_succ, List.getElem?_cons_zero, hget1]

def exDepot : DeliveryNode := ⟨"DEPOT", "Almacén", 0, 0, true, false⟩

def exWaypoint : DeliveryNode := ⟨"WAYPOINT_HUICHAPAN", "Huichapan", 1, 1, false, true⟩

def exStop : DeliveryNode := ⟨"A", "a", 2, 2, false, false⟩

/-- The result of `solve` on the three-node example with the only
feasible assignment `0 → 1 → 2 → end`. -/
def exSolveResult : OptimizationResult :=
  ⟨true, "Ruta optimizada con " ++ toString 3 ++ " paradas",
    [exDepot, exWaypoint, exStop], 0, pyInt (((0 : Int) : ℚ) / (1389 / 100)), [0, 1, 2, 0]⟩

/-- Witness for C1 with one delivery node and the only feasible
assignment `0 → 1 → 2 → end`. -/
theorem solve_waypoint_first_witness :
    exSolveResult.ordered_nodes[0]? = some exDepot ∧
      exSolveResult.ordered_nodes[1]? = some exWaypoint :=
  solve_waypoint_first exDepot exWaypoint [exStop] (zeros 3 3) (fun i => i + 1)
    exSolveResult rfl (by rfl) rfl

theorem ruta_message_ne (s : String) :
    "Ruta optimizada con " ++ s ++ " paradas" ≠
      "Error interno: Matriz de distancias incorrecta" := by
  intro h
  have hR : ("Ruta optimizada con " ++ s ++ " paradas").data.head? = some 'R' := by
    rw [String.data_append, String.data_append]
    rfl
  rw [h] at hR
  exact absurd hR (by decide)

/-- Counterexample to C8 as stated: for the non-empty matrix `[[]]`
(dimension 1, expected node count 2) the debug statement
`type(distance_matrix[0][0])` at line 103 raises `IndexError` before the
size validation runs, so the call produces an exception (`none`), not
the promised `success=false` internal-error result. -/
theorem solve_matrix_mismatch_cex :
    solve exDepot none [exStop] [[]] none = none ∧
      ([[]] : List (List Int)).length ≠ (allNodes exDepot none [exStop]).length := by
  constructor
  · rfl
  · decide

/-- C8 amended: whenever the matrix's row count differs from the
expected node count and the line-103 debug print does not itself raise
(the matrix is empty, or its first row is non-empty), the solver fails
before any search with `success=false`, the internal matrix-error
message, and an empty node list — a message distinct from the
no-solution one. -/
theorem solve_matrix_mismatch (depot : DeliveryNode) (wp : Option DeliveryNode)
    (ds : List DeliveryNode) (m : List (List Int)) (sr : Option (Nat → Nat))
    (hm : m.length ≠ (allNodes depot wp ds).length)
    (hdbg : m.length = 0 ∨ (m.getD 0 []).length ≠ 0) :
    solve depot wp ds m sr =
      some ⟨false, "Error interno: Matriz de distancias incorrecta", [], 0, 0, []⟩ ∧
    "Error interno: Matriz de distancias incorrecta" ≠ "No se encontró solución óptima" := by
  refine ⟨?_, by decide⟩
  have hno : ¬(m.length ≠ 0 ∧ (m.getD 0 []).length = 0) := by
    intro hc
    rcases hdbg with h | h
    · exact hc.1 h
    · exact h hc.2
  rw [solve.eq_def, if_neg hno, if_pos hm]

/-- Witness for C8 (amended): 3×2 matrix against 2 expected nodes. -/
theorem solve_matrix_mismatch_witness :
    solve exDepot none [exStop] [[0, 0], [0, 0], [0, 0]] none =
      some ⟨false, "Error interno: Matriz de distancias incorrecta", [], 0, 0, []⟩ ∧
    "Error interno: Matriz de distancias incorrecta" ≠ "No se encontró solución óptima" :=
  solve_matrix_mismatch exDepot none [exStop] [[0, 0], [0, 0], [0, 0]] none
    (by decide) (by decide)

/-- C9: the solver's validation compares only the row count of the
matrix to the expected node count: any matrix with the right number of
rows passes it whatever the row widths, and then the registered distance
callback can hit a missing cell of a short row (the lookup is `none` for
an in-range node pair), as the concrete short-row instance shows —
there the call still reaches the search and succeeds. -/
theorem solve_checks_only_row_count :
    (∀ (depot : DeliveryNode) (wp : Option DeliveryNode) (ds : List DeliveryNode)
        (m : List (List Int)) (sr : Option (Nat → Nat)) (res : OptimizationResult),
      m.length = (allNodes depot wp ds).length →
      solve depot wp ds m sr = some res →
      res.message ≠ "Error interno: Matriz de distancias incorrecta") ∧
    ((solve exDepot none [exStop] [[0, 0], [0]] (some fun i => i + 1)).map
        (fun r => r.success) = some true ∧
      distanceCallbackLookup [[0, 0], [0]] 1 1 = none ∧
      ([[0, 0], [0]] : List (List Int)).length = (allNodes exDepot none [exStop]).length ∧
      1 < (allNodes exDepot none [exStop]).length) := by
  constructor
  · intro depot wp ds m sr res hm hsolve
    rw [solve.eq_def] at hsolve
    by_cases hdbg : m.length ≠ 0 ∧ (m.getD 0 []).length = 0
    · rw [if_pos hdbg] at hsolve
      exact absurd hsolve (by simp)
    rw [if_neg hdbg, if_neg (by omega)] at hsolve
    by_cases hsmall : (allNodes depot wp ds).length < 2
    · rw [if_pos hsmall, Option.some_inj] at hsolve
      rw [← hsolve]
      decide
    rw [if_neg hsmall] at hsolve
    match sr with
    | none =>
        rw [Option.some_inj] at hsolve
        rw [← hsolve]
        decide
    | some nxt =>
        rw [Option.some_inj] at hsolve
        rw [← hsolve]
        exact ruta_message_ne _
  · exact ⟨rfl, rfl, by decide, by decide⟩

/-- Witness for C9's universal part: a correctly-sized matrix is never
answered with the internal matrix-error message. -/
theorem solve_checks_only_row_count_witness :
    ("No se encontró solución óptima" : String) ≠
      "Error interno: Matriz de distancias incorrecta" :=
  solve_checks_only_row_count.1 exDepot none [exStop] [[0, 0], [0, 0]] none
    ⟨false, "No se encontró solución óptima", [], 0, 0, []⟩ (by decide) rfl

/-! ### `app/main.py` — zone grouping, proxy expansion, response building

`optimize_route` builds delivery dicts with keys `id`, `name`, `lat`,
`lng`, `type` and `zona`, groups those whose stripped zone is non-empty
by the stripped-lowercased zone key into an insertion-ordered dict,
creates proxy nodes for multi-member zones, solves, expands proxies
back, and numbers the visits.  `str.strip` / `str.lower` are embedded
executably as `pyStrip` / `pyLower` (Lean's own `String.trim` is not
kernel-reducible). -/

/-- Python `str.strip()`. -/
def pyStrip (s : String) : String :=
  ⟨((s.data.dropWhile Char.isWhitespace).reverse.dropWhile Char.isWhitespace).reverse⟩

/-- Python `str.lower()`. -/
def pyLower (s : String) : String := ⟨s.data.map Char.toLower⟩

structure Delivery where
  id : String
  name : String
  lat : ℚ
  lng : ℚ
  type : String
  zona : String
deriving DecidableEq, Repr

instance : Inhabited Delivery := ⟨⟨"", "", 0, 0, "", ""⟩⟩

/-- Key `zone_key = zona.lower()` for `zona = d.get("zona", "").strip()`. -/
def zoneKey (d : Delivery) : String := pyLower (pyStrip d.zona)

/-- Assignment `grouped_deliveries[zone_key].append(d)`, on an insertion-ordered
dict represented as an association list. -/
def insertGrouped (g : List (String × List Delivery)) (k : String) (d : Delivery) :
    List (String × List Delivery) :=
  match g with
  | [] => [(k, [d])]
  | (k', items) :: rest =>
      if k' = k then (k', items ++ [d]) :: rest
      else (k', items) :: insertGrouped rest k d

/-- One iteration of the grouping loop over `all_deliveries_flat`. -/
def groupStep (acc : List (String × List Delivery) × List Delivery) (d : Delivery) :
    List (String × List Delivery) × List Delivery :=
  if pyStrip d.zona ≠ "" then (insertGrouped acc.1 (zoneKey d) d, acc.2)
  else (acc.1, acc.2 ++ [d])

/-- The grouping loop: returns `(grouped_deliveries, singles)`. -/
def groupDeliveries (ds : List Delivery) : List (String × List Delivery) × List Delivery :=
  ds.foldl groupStep ([], [])

/-- Assignment `solver_nodes_map[key] = value` on a dict as association list. -/
def mapSet : List (String × List Delivery) → String → List Delivery →
    List (String × List Delivery)
  | [], k, v => [(k, v)]
  | (k', v') :: rest, k, v =>
      if k' = k then (k', v) :: rest
      else (k', v') :: mapSet rest k v

/-- Lookup `solver_nodes_map.get(key)`. -/
def mapGet : List (String × List Delivery) → String → Option (List Delivery)
  | [], _ => none
  | (k', v) :: rest, k => if k' = k then some v else mapGet rest k

/-- The proxy node built for a multi-member zone: centroid coordinates,
`id = f"GROUP_{zone_key}"`, `name = f"Zona: {items[0].get('zona')}"`. -/
def mkProxy (zoneK : String) (items : List Delivery) : Delivery :=
  { id := "GROUP_" ++ zoneK
    name := "Zona: " ++ (items.headD default).zona
    lat := (items.map (·.lat)).sum / (items.length : ℚ)
    lng := (items.map (·.lng)).sum / (items.length : ℚ)
    type := "group"
    zona := (items.headD default).zona }

/-- One iteration of the `for zone_key, items in grouped_deliveries.items()`
loop: a 1-member zone passes its stop through, a multi-member zone emits
the proxy; both record the members under the emitted node's id. -/
def nodeStep (acc : List Delivery × List (String × List Delivery))
    (p : String × List Delivery) : List Delivery × List (String × List Delivery) :=
  if p.2.length = 1 then
    (acc.1 ++ p.2, mapSet acc.2 (p.2.headD default).id p.2)
  else
    (acc.1 ++ [mkProxy p.1 p.2], mapSet acc.2 ("GROUP_" ++ p.1) p.2)

/-- Lines 723-756 of `app/main.py`: singles first, then the grouped
zones, returning `(final_nodes_for_solver, solver_nodes_map)`. -/
def buildNodes (ds : List Delivery) : List Delivery × List (String × List Delivery) :=
  let gs := groupDeliveries ds
  let start := gs.2.foldl (fun acc d => (acc.1 ++ [d], mapSet acc.2 d.id [d])) ([], [])
  gs.1.foldl nodeStep start

/-- Conversion `DeliveryNode(id=d["id"], name=d["name"], lat=d["lat"], lng=d["lng"])`. -/
def toNode (d : Delivery) : DeliveryNode := ⟨d.id, d.name, d.lat, d.lng, false, false⟩

/-- Lines 836-859: expansion of one solved node — depot and waypoint
pass through, an id found in the map is replaced by its members, an
unknown id passes through. -/
def expandNode (m : List (String × List Delivery)) (nd : DeliveryNode) : List DeliveryNode :=
  if nd.is_depot || nd.is_security_waypoint then [nd]
  else
    match mapGet m nd.id with
    | some items => items.map toNode
    | none => [nd]

/-- The whole expansion loop over `result.ordered_nodes`. -/
def expandRoute (m : List (String × List Delivery)) (route : List DeliveryNode) :
    List DeliveryNode :=
  route.flatMap (expandNode m)

/-- Lines 879-895: the response loop pairing each node with its
`visit_order` (absent for the depot, `visit_num` incremented for every
other node — including the waypoint). -/
def buildOptimizedOrder (route : List DeliveryNode) : List (DeliveryNode × Option Nat) :=
  (route.foldl
    (fun (acc : List (DeliveryNode × Option Nat) × Nat) nd =>
      if nd.is_depot then (acc.1 ++ [(nd, none)], acc.2)
      else (acc.1 ++ [(nd, some (acc.2 + 1))], acc.2 + 1))
    ([], 0)).1

/-- Lines 862-871: the Google-Sheets update list `(order_id,
orden_visita)`, built only from nodes that are neither depot nor
waypoint, numbering from 1. -/
def sheetsUpdates (route : List DeliveryNode) : List (String × Nat) :=
  (route.foldl
    (fun (acc : List (String × Nat) × Nat) nd =>
      if !nd.is_depot && !nd.is_security_waypoint then (acc.1 ++ [(nd.id, acc.2)], acc.2 + 1)
      else acc)
    ([], 1)).1

/-! Independent (spec-side) characterisations of the grouping output,
used to state what the fold above produces. -/

/-- The stop has a non-empty zone after stripping. -/
def hasZoneB (d : Delivery) : Bool := pyStrip d.zona != ""

/-- All stops of `ds` carrying the normalized zone key `k`. -/
def zoneMembers (ds : List Delivery) (k : String) : List Delivery :=
  ds.filter fun d => hasZoneB d && (zoneKey d == k)

/-- The stops with no zone, in input order. -/
def noZoneStops (ds : List Delivery) : List Delivery :=
  ds.filter fun d => !hasZoneB d

/-- The distinct zone keys in first-seen input order. -/
def firstSeenKeys : List Delivery → List String
  | [] => []
  | d :: ds =>
      if hasZoneB d then zoneKey d :: (firstSeenKeys ds).filter (fun k => k != zoneKey d)
      else firstSeenKeys ds

/-- The node the grouping emits for zone key `k` of input `ds`. -/
def specZoneNode (ds : List Delivery) (k : String) : Delivery :=
  if (zoneMembers ds k).length = 1 then (zoneMembers ds k).headD default
  else mkProxy k (zoneMembers ds k)

/-! Characterisation of the grouping fold. -/

theorem zoneMembers_nil (k : String) : zoneMembers [] k = [] := rfl

theorem zoneMembers_cons (d : Delivery) (ds : List Delivery) (k : String) :
    zoneMembers (d :: ds) k =
      if hasZoneB d && (zoneKey d == k) then d :: zoneMembers ds k else zoneMembers ds k := by
  rw [zoneMembers, List.filter_cons]
  split
  · rfl
  · rfl

theorem zoneMembers_cons_self (d : Delivery) (ds : List Delivery)
    (hz : hasZoneB d = true) :
    zoneMembers (d :: ds) (zoneKey d) = d :: zoneMembers ds (zoneKey d) := by
  rw [zoneMembers_cons, if_pos (by simp [hz])]

theorem zoneMembers_cons_ne (d : Delivery) (ds : List Delivery) (k : String)
    (h : zoneKey d ≠ k) : zoneMembers (d :: ds) k = zoneMembers ds k := by
  rw [zoneMembers_cons]
  split
  · rename_i hco
    rw [Bool.and_eq_true, beq_iff_eq] at hco
    exact absurd hco.2 h
  · rfl

theorem zoneMembers_cons_noZone (d : Delivery) (ds : List Delivery) (k : String)
    (h : hasZoneB d = false) : zoneMembers (d :: ds) k = zoneMembers ds k := by
  rw [zoneMembers_cons, if_neg (by simp [h])]

theorem firstSeenKeys_cons_zone (d : Delivery) (ds : List Delivery)
    (hz : hasZoneB d = true) :
    firstSeenKeys (d :: ds) =
      zoneKey d :: (firstSeenKeys ds).filter (fun k => k != zoneKey d) := by
  rw [firstSeenKeys, if_pos hz]

theorem firstSeenKeys_cons_noZone (d : Delivery) (ds : List Delivery)
    (hz : hasZoneB d = false) : firstSeenKeys (d :: ds) = firstSeenKeys ds := by
  rw [firstSeenKeys, if_neg (by simp [hz])]

theorem firstSeenKeys_nodup (ds : List Delivery) : (firstSeenKeys ds).Nodup := by
  induction ds with
  | nil => exact List.nodup_nil
  | cons d ds ih =>
      rw [firstSeenKeys]
      split
      · refine List.nodup_cons.2 ⟨?_, List.Nodup.filter _ ih⟩
        intro hmem
        rcases List.mem_filter.1 hmem with ⟨_, hne⟩
        simp at hne
      · exact ih

theorem zoneMembers_nil_of_not_firstSeen (ds : List Delivery) (k : String)
    (h : k ∉ firstSeenKeys ds) : zoneMembers ds k = [] := by
  induction ds with
  | nil => rfl
  | cons d ds ih =>
      by_cases hz : hasZoneB d = true
      · rw [firstSeenKeys_cons_zone d ds hz] at h
        rw [List.mem_cons] at h
        push_neg at h
        have hne : zoneKey d ≠ k := fun hc => h.1 hc.symm
        rw [zoneMembers_cons_ne d ds k hne]
        refine ih fun hmem => h.2 (List.mem_filter.2 ⟨hmem, ?_⟩)
        simpa using h.1
      · rw [Bool.not_eq_true] at hz
        rw [firstSeenKeys_cons_noZone d ds hz] at h
        rw [zoneMembers_cons_noZone d ds k hz]
        exact ih h

theorem insertGrouped_keys_of_mem (g : List (String × List Delivery)) (kd : String)
    (d : Delivery) (hmem : kd ∈ g.map (·.1)) :
    (insertGrouped g kd d).map (·.1) = g.map (·.1) := by
  induction g with
  | nil => simp at hmem
  | cons p rest ih =>
      rw [insertGrouped]
      rw [List.map_cons] at hmem
      by_cases hk : p.1 = kd
      · rw [show (p : String × List Delivery) = (p.1, p.2) from rfl, if_pos hk]
        simp
      · rw [show (p : String × List Delivery) = (p.1, p.2) from rfl, if_neg hk]
        rw [List.map_cons, List.map_cons]
        rcases List.mem_cons.1 hmem with hc | hc
        · exact absurd hc.symm hk
        · rw [ih hc]

theorem insertGrouped_of_not_mem (g : List (String × List Delivery)) (kd : String)
    (d : Delivery) (hmem : kd ∉ g.map (·.1)) :
    insertGrouped g kd d = g ++ [(kd, [d])] := by
  induction g with
  | nil => rfl
  | cons p rest ih =>
      rw [insertGrouped]
      by_cases hk : p.1 = kd
      · exact absurd (by simp [hk]) hmem
      · rw [show (p : String × List Delivery) = (p.1, p.2) from rfl, if_neg hk]
        rw [ih (by intro hc; exact hmem (by simp [hc]))]
        rfl

theorem hasZoneB_true_iff (d : Delivery) : hasZoneB d = true ↔ pyStrip d.zona ≠ "" := by
  rw [hasZoneB]
  exact bne_iff_ne

/-- What the grouped dict looks like after folding `ds` on top of an
accumulator `g`: existing entries extended with their members from `ds`,
then the new first-seen keys of `ds`. -/
def mergeSpec (g : List (String × List Delivery)) (ds : List Delivery) :
    List (String × List Delivery) :=
  g.map (fun p => (p.1, p.2 ++ zoneMembers ds p.1)) ++
    ((firstSeenKeys ds).filter (fun k => !(g.map (·.1)).contains k)).map
      (fun k => (k, zoneMembers ds k))

theorem insert_map_part (g : List (String × List Delivery)) (ds : List Delivery)
    (d : Delivery) (hnd : (g.map (·.1)).Nodup) (hz : hasZoneB d = true)
    (hmem : zoneKey d ∈ g.map (·.1)) :
    (insertGrouped g (zoneKey d) d).map (fun p => (p.1, p.2 ++ zoneMembers ds p.1)) =
      g.map (fun p => (p.1, p.2 ++ zoneMembers (d :: ds) p.1)) := by
  induction g with
  | nil => simp at hmem
  | cons p rest ih =>
      rw [List.map_cons, List.nodup_cons] at hnd
      rw [List.map_cons] at hmem
      rw [insertGrouped]
      by_cases hk : p.1 = zoneKey d
      · rw [show (p : String × List Delivery) = (p.1, p.2) from rfl, if_pos hk]
        rw [List.map_cons, List.map_cons]
        congr 1
        · show (p.1, p.2 ++ [d] ++ zoneMembers ds p.1) = (p.1, p.2 ++ zoneMembers (d :: ds) p.1)
          rw [hk, zoneMembers_cons_self d ds hz, List.append_assoc]
          rfl
        · refine List.map_congr_left fun q hq => ?_
          have hqne : zoneKey d ≠ q.1 := by
            intro hc
            exact hnd.1 (by rw [hk, hc]; exact List.mem_map.2 ⟨q, hq, rfl⟩)
          rw [zoneMembers_cons_ne d ds q.1 hqne]
      · rw [show (p : String × List Delivery) = (p.1, p.2) from rfl, if_neg hk]
        rw [List.map_cons, List.map_cons]
        congr 1
        · show (p.1, p.2 ++ zoneMembers ds p.1) = (p.1, p.2 ++ zoneMembers (d :: ds) p.1)
          rw [zoneMembers_cons_ne d ds p.1 (fun hc => hk hc.symm)]
        · refine ih hnd.2 ?_
          rcases List.mem_cons.1 hmem with hc | hc
          · exact absurd hc.symm hk
          · exact hc

theorem filter_part_mem (g : List (String × List Delivery)) (ds : List Delivery)
    (d : Delivery) (hz : hasZoneB d = true) (hmem : zoneKey d ∈ g.map (·.1)) :
    ((firstSeenKeys (d :: ds)).filter (fun k => !(g.map (·.1)).contains k)).map
        (fun k => (k, zoneMembers (d :: ds) k)) =
      ((firstSeenKeys ds).filter (fun k => !(g.map (·.1)).contains k)).map
        (fun k => (k, zoneMembers ds k)) := by
  have hex : ∃ x, (zoneKey d, x) ∈ g := by
    rcases List.mem_map.1 hmem with ⟨q, hq, hq1⟩
    exact ⟨q.2, by rw [← hq1]; exact hq⟩
  rw [firstSeenKeys_cons_zone d ds hz, List.filter_cons]
  rw [if_neg (by simpa using hex)]
  rw [List.filter_filter]
  have hfe : (firstSeenKeys ds).filter
      (fun k => (!(g.map (·.1)).contains k) && (k != zoneKey d)) =
      (firstSeenKeys ds).filter (fun k => !(g.map (·.1)).contains k) := by
    refine List.filter_congr fun k _ => ?_
    show (!(g.map (·.1)).contains k && (k != zoneKey d)) = !(g.map (·.1)).contains k
    by_cases h1 : k ∈ g.map (·.1)
    · have hc1 : (g.map (·.1)).contains k = true := by simpa using h1
      rw [hc1]
      rfl
    · have hc0 : (g.map (·.1)).contains k = false := by simpa using h1
      have hkne : (k != zoneKey d) = true := by
        refine bne_iff_ne.2 fun hkd => ?_
        rw [hkd] at h1
        exact h1 hmem
      rw [hc0, hkne]
      rfl
  rw [hfe]
  refine List.map_congr_left fun k hk => ?_
  rcases List.mem_filter.1 hk with ⟨_, hnc⟩
  have hkne : zoneKey d ≠ k := by
    intro hc
    rw [← hc] at hnc
    rcases hex with ⟨x, hx⟩
    simp at hnc
    exact hnc x hx
  rw [zoneMembers_cons_ne d ds k hkne]

theorem mergeSpec_insert_not_mem (g : List (String × List Delivery)) (ds : List Delivery)
    (d : Delivery) (hz : hasZoneB d = true) (hmem : zoneKey d ∉ g.map (·.1)) :
    mergeSpec (g ++ [(zoneKey d, [d])]) ds = mergeSpec g (d :: ds) := by
  rw [mergeSpec, mergeSpec]
  have hmap : g.map (fun p => (p.1, p.2 ++ zoneMembers (d :: ds) p.1)) =
      g.map (fun p => (p.1, p.2 ++ zoneMembers ds p.1)) := by
    refine List.map_congr_left fun q hq => ?_
    have hqne : zoneKey d ≠ q.1 := by
      intro hc
      exact hmem (by rw [hc]; exact List.mem_map.2 ⟨q, hq, rfl⟩)
    rw [zoneMembers_cons_ne d ds q.1 hqne]
  rw [hmap]
  rw [firstSeenKeys_cons_zone d ds hz, List.filter_cons]
  rw [if_pos (by simpa using hmem)]
  rw [List.filter_filter]
  have hfe : (firstSeenKeys ds).filter
      (fun k => !((g ++ [(zoneKey d, [d])]).map (·.1)).contains k) =
      (firstSeenKeys ds).filter
        (fun k => (!(g.map (·.1)).contains k) && (k != zoneKey d)) := by
    refine List.filter_congr fun k _ => ?_
    show (!((g ++ [(zoneKey d, [d])]).map (·.1)).contains k) =
      (!(g.map (·.1)).contains k && (k != zoneKey d))
    by_cases h1 : k ∈ g.map (·.1)
    · have hc1 : (g.map (·.1)).contains k = true := by simpa using h1
      have hc2 : ((g ++ [(zoneKey d, [d])]).map (·.1)).contains k = true := by
        refine List.elem_eq_true_of_mem ?_
        rw [List.map_append]
        exact List.mem_append.2 (Or.inl h1)
      rw [hc1, hc2]
      rfl
    · have hc0 : (g.map (·.1)).contains k = false := by simpa using h1
      by_cases h2 : k = zoneKey d
      · have hc2 : ((g ++ [(zoneKey d, [d])]).map (·.1)).contains k = true := by
          refine List.elem_eq_true_of_mem ?_
          rw [List.map_append]
          refine List.mem_append.2 (Or.inr ?_)
          simp [h2]
        rw [hc0, hc2, h2, bne_self_eq_false]
        rfl
      · have hc2 : ((g ++ [(zoneKey d, [d])]).map (·.1)).contains k = false := by
          have hnm : k ∉ (g ++ [(zoneKey d, [d])]).map (·.1) := by
            rw [List.map_append]
            intro hc
            rcases List.mem_append.1 hc with hc | hc
            · exact h1 hc
            · simp at hc
              exact h2 hc
          simpa using hnm
        have hbne : (k != zoneKey d) = true := bne_iff_ne.2 h2
        rw [hc0, hc2, hbne]
        rfl
  rw [hfe, List.map_append, List.append_assoc]
  congr 1
  rw [List.map_cons]
  show (zoneKey d, [d] ++ zoneMembers ds (zoneKey d)) ::
      ((firstSeenKeys ds).filter
        (fun k => (!(g.map (·.1)).contains k) && (k != zoneKey d))).map
        (fun k => (k, zoneMembers ds k)) =
    (zoneKey d, zoneMembers (d :: ds) (zoneKey d)) ::
      ((firstSeenKeys ds).filter
        (fun k => (!(g.map (·.1)).contains k) && (k != zoneKey d))).map
        (fun k => (k, zoneMembers (d :: ds) k))
  congr 1
  · rw [zoneMembers_cons_self d ds hz]
    rfl
  · refine List.map_congr_left fun k hk => ?_
    rcases List.mem_filter.1 hk with ⟨_, hcond⟩
    rw [Bool.and_eq_true] at hcond
    have hkne : zoneKey d ≠ k := by
      have := bne_iff_ne.1 hcond.2
      exact fun hc => this hc.symm
    rw [zoneMembers_cons_ne d ds k hkne]

theorem mergeSpec_insert (g : List (String × List Delivery)) (ds : List Delivery)
    (d : Delivery) (hnd : (g.map (·.1)).Nodup) (hz : hasZoneB d = true) :
    mergeSpec (insertGrouped g (zoneKey d) d) ds = mergeSpec g (d :: ds) := by
  by_cases hmem : zoneKey d ∈ g.map (·.1)
  · rw [mergeSpec, mergeSpec, insert_map_part g ds d hnd hz hmem,
      insertGrouped_keys_of_mem g _ d hmem, filter_part_mem g ds d hz hmem]
  · rw [insertGrouped_of_not_mem g _ d hmem]
    exact mergeSpec_insert_not_mem g ds d hz hmem

theorem insertGrouped_keys_nodup (g : List (String × List Delivery)) (kd : String)
    (d : Delivery) (hnd : (g.map (·.1)).Nodup) :
    ((insertGrouped g kd d).map (·.1)).Nodup := by
  by_cases hmem : kd ∈ g.map (·.1)
  · rw [insertGrouped_keys_of_mem g kd d hmem]
    exact hnd
  · rw [insertGrouped_of_not_mem g kd d hmem, List.map_append]
    rw [List.nodup_append]
    exact ⟨hnd, by simp, by simpa using hmem⟩

theorem noZoneStops_cons_zone (d : Delivery) (ds : List Delivery)
    (hz : hasZoneB d = true) : noZoneStops (d :: ds) = noZoneStops ds := by
  rw [noZoneStops, List.filter_cons, if_neg (by simp [hz]), noZoneStops]

theorem noZoneStops_cons_noZone (d : Delivery) (ds : List Delivery)
    (hz : hasZoneB d = false) : noZoneStops (d :: ds) = d :: noZoneStops ds := by
  rw [noZoneStops, List.filter_cons, if_pos (by simp [hz]), noZoneStops]

theorem mergeSpec_cons_noZone (g : List (String × List Delivery)) (ds : List Delivery)
    (d : Delivery) (hz : hasZoneB d = false) :
    mergeSpec g (d :: ds) = mergeSpec g ds := by
  rw [mergeSpec, mergeSpec, firstSeenKeys_cons_noZone d ds hz]
  congr 1
  · refine List.map_congr_left fun q _ => ?_
    rw [zoneMembers_cons_noZone d ds q.1 hz]
  · refine List.map_congr_left fun k _ => ?_
    rw [zoneMembers_cons_noZone d ds k hz]

theorem groupFold_spec (ds : List Delivery) :
    ∀ (g : List (String × List Delivery)) (s : List Delivery),
      (g.map (·.1)).Nodup →
      ds.foldl groupStep (g, s) = (mergeSpec g ds, s ++ noZoneStops ds) := by
  induction ds with
  | nil =>
      intro g s _
      rw [List.foldl_nil]
      rw [show mergeSpec g [] = g by
        rw [mergeSpec]
        simp [firstSeenKeys, zoneMembers]]
      rw [show noZoneStops [] = [] from rfl, List.append_nil]
  | cons d ds ih =>
      intro g s hnd
      rw [List.foldl_cons]
      by_cases hz : pyStrip d.zona ≠ ""
      · have hzB : hasZoneB d = true := (hasZoneB_true_iff d).2 hz
        rw [show groupStep (g, s) d = (insertGrouped g (zoneKey d) d, s) by
          rw [groupStep, if_pos hz]]
        rw [ih _ s (insertGrouped_keys_nodup g (zoneKey d) d hnd)]
        rw [mergeSpec_insert g ds d hnd hzB, noZoneStops_cons_zone d ds hzB]
      · have hzB : hasZoneB d = false := by
          rw [← Bool.not_eq_true, hasZoneB_true_iff]
          exact fun hc => hz hc
        rw [show groupStep (g, s) d = (g, s ++ [d]) by
          rw [groupStep, if_neg hz]]
        rw [ih g (s ++ [d]) hnd]
        rw [mergeSpec_cons_noZone g ds d hzB, noZoneStops_cons_noZone d ds hzB,
          List.append_assoc]
        rfl

/-- The grouping pass of `optimize_route`, characterised: the grouped
dict holds, per first-seen zone key, exactly the stops of that key in
input order, and the singles are the zone-less stops in input order. -/
theorem groupDeliveries_spec (ds : List Delivery) :
    groupDeliveries ds =
      ((firstSeenKeys ds).map (fun k => (k, zoneMembers ds k)), noZoneStops ds) := by
  rw [groupDeliveries, groupFold_spec ds [] [] (by simp)]
  rw [show mergeSpec [] ds = (firstSeenKeys ds).map (fun k => (k, zoneMembers ds k)) by
    rw [mergeSpec]
    simp]
  rw [List.nil_append]

/-- A sequence of dict assignments `m[k] = v`. -/
def applyWrites (m : List (String × List Delivery)) (ws : List (String × List Delivery)) :
    List (String × List Delivery) :=
  ws.foldl (fun acc w => mapSet acc w.1 w.2) m

/-- The `solver_nodes_map` assignment a grouped entry performs. -/
def groupWrite (p : String × List Delivery) : String × List Delivery :=
  if p.2.length = 1 then ((p.2.headD default).id, p.2) else ("GROUP_" ++ p.1, p.2)

/-- All `solver_nodes_map` assignments of `optimize_route`, in order:
singles first, then the grouped zones. -/
def buildWrites (ds : List Delivery) : List (String × List Delivery) :=
  (noZoneStops ds).map (fun d => (d.id, [d])) ++
    (firstSeenKeys ds).map (fun k => groupWrite (k, zoneMembers ds k))

theorem nodeFold_nodes (gl : List (String × List Delivery)) :
    ∀ st : List Delivery × List (String × List Delivery),
      (gl.foldl nodeStep st).1 =
        st.1 ++ gl.map (fun p => if p.2.length = 1 then p.2.headD default
          else mkProxy p.1 p.2) := by
  induction gl with
  | nil => intro st; simp
  | cons p rest ih =>
      intro st
      rw [List.foldl_cons, ih, List.map_cons]
      rw [show (nodeStep st p).1 = st.1 ++
        [if p.2.length = 1 then p.2.headD default else mkProxy p.1 p.2] by
          rw [nodeStep]
          by_cases h1 : p.2.length = 1
          · rcases List.length_eq_one.1 h1 with ⟨a, ha⟩
            rw [if_pos h1, if_pos h1, ha]
            rfl
          · rw [if_neg h1, if_neg h1]]
      rw [List.append_assoc]
      rfl

theorem nodeFold_map (gl : List (String × List Delivery)) :
    ∀ st : List Delivery × List (String × List Delivery),
      (gl.foldl nodeStep st).2 = applyWrites st.2 (gl.map groupWrite) := by
  induction gl with
  | nil => intro st; rfl
  | cons p rest ih =>
      intro st
      rw [List.foldl_cons, ih, List.map_cons]
      rw [show (nodeStep st p).2 = mapSet st.2 (groupWrite p).1 (groupWrite p).2 by
        rw [nodeStep, groupWrite]
        by_cases h1 : p.2.length = 1
        · rw [if_pos h1, if_pos h1]
        · rw [if_neg h1, if_neg h1]]
      rfl

theorem singleFold_eq (s : List Delivery) :
    ∀ st : List Delivery × List (String × List Delivery),
      s.foldl (fun acc d => (acc.1 ++ [d], mapSet acc.2 d.id [d])) st =
        (st.1 ++ s, applyWrites st.2 (s.map fun d => (d.id, [d]))) := by
  induction s with
  | nil => intro st; simp [applyWrites]
  | cons d rest ih =>
      intro st
      rw [List.foldl_cons, ih, List.map_cons]
      rw [List.append_assoc]
      rfl

/-- The fold `buildNodes`, characterised: nodes are the zone-less stops in input
order followed by one node per zone in first-seen zone order, and the
map is the corresponding assignment sequence. -/
theorem buildNodes_spec (ds : List Delivery) :
    buildNodes ds = (noZoneStops ds ++ (firstSeenKeys ds).map (specZoneNode ds),
      applyWrites [] (buildWrites ds)) := by
  rw [buildNodes, groupDeliveries_spec ds]
  rw [singleFold_eq (noZoneStops ds) ([], [])]
  rw [show (([] : List Delivery) ++ noZoneStops ds, applyWrites []
      ((noZoneStops ds).map fun d => (d.id, [d]))) =
    (noZoneStops ds, applyWrites [] ((noZoneStops ds).map fun d => (d.id, [d]))) by
      rw [List.nil_append]]
  have h1 := nodeFold_nodes ((firstSeenKeys ds).map (fun k => (k, zoneMembers ds k)))
    (noZoneStops ds, applyWrites [] ((noZoneStops ds).map fun d => (d.id, [d])))
  have h2 := nodeFold_map ((firstSeenKeys ds).map (fun k => (k, zoneMembers ds k)))
    (noZoneStops ds, applyWrites [] ((noZoneStops ds).map fun d => (d.id, [d])))
  refine Prod.ext ?_ ?_
  · rw [h1, List.map_map]
    rfl
  · rw [h2, List.map_map]
    rw [applyWrites, applyWrites, applyWrites, ← List.foldl_append]
    rfl

theorem mapGet_mapSet (m : List (String × List Delivery)) (k : String) (v : List Delivery)
    (k' : String) :
    mapGet (mapSet m k v) k' = if k = k' then some v else mapGet m k' := by
  induction m with
  | nil => simp only [mapSet, mapGet]
  | cons p rest ih =>
      obtain ⟨pk, pv⟩ := p
      rw [mapSet]
      by_cases h1 : pk = k
      · rw [if_pos h1]
        simp only [mapGet]
        by_cases h2 : k = k'
        · rw [if_pos (h1.trans h2), if_pos h2]
        · rw [if_neg (fun hc => h2 (h1.symm.trans hc)), if_neg h2,
            if_neg (fun hc => h2 (h1.symm.trans hc))]
      · rw [if_neg h1]
        simp only [mapGet, ih]
        by_cases h2 : pk = k'
        · rw [if_pos h2, if_neg (fun hc => h1 (h2.trans hc.symm)), if_pos h2]
        · rw [if_neg h2, if_neg h2]

theorem mapGet_applyWrites (ws : List (String × List Delivery)) :
    ∀ (m : List (String × List Delivery)) (k : String),
      mapGet (applyWrites m ws) k =
        ws.foldl (fun acc w => if w.1 = k then some w.2 else acc) (mapGet m k) := by
  induction ws with
  | nil => intro m k; rfl
  | cons w rest ih =>
      intro m k
      rw [applyWrites, List.foldl_cons, ← applyWrites, ih, List.foldl_cons]
      rw [mapGet_mapSet]

theorem writeFold_none (ws : List (String × List Delivery)) (k : String)
    (init : Option (List Delivery)) (h : ∀ w ∈ ws, w.1 ≠ k) :
    ws.foldl (fun acc w => if w.1 = k then some w.2 else acc) init = init := by
  induction ws generalizing init with
  | nil => rfl
  | cons w rest ih =>
      rw [List.foldl_cons, if_neg (h w (List.mem_cons_self w rest))]
      exact ih init fun o ho => h o (List.mem_cons_of_mem w ho)

theorem writeFold_prop (ws : List (String × List Delivery)) (k : String)
    (P : List Delivery → Prop) (init : Option (List Delivery))
    (hall : ∀ w ∈ ws, w.1 = k → P w.2) (hex : ∃ w ∈ ws, w.1 = k) :
    ∃ v, ws.foldl (fun acc w => if w.1 = k then some w.2 else acc) init = some v ∧ P v := by
  induction ws generalizing init with
  | nil => rcases hex with ⟨w, hw, _⟩; exact absurd hw (List.not_mem_nil w)
  | cons w rest ih =>
      rw [List.foldl_cons]
      by_cases hrest : ∃ o ∈ rest, o.1 = k
      · exact ih _ (fun o ho => hall o (List.mem_cons_of_mem w ho)) hrest
      · have hw : w.1 = k := by
          rcases hex with ⟨o, ho, hok⟩
          rcases List.mem_cons.1 ho with rfl | ho'
          · exact hok
          · exact absurd ⟨o, ho', hok⟩ hrest
        rw [if_pos hw]
        rw [writeFold_none rest k _ fun o ho hc => hrest ⟨o, ho, hc⟩]
        exact ⟨w.2, rfl, hall w (List.mem_cons_self w rest) hw⟩

theorem group_id_inj (a b : String) (h : "GROUP_" ++ a = "GROUP_" ++ b) : a = b := by
  have hd := congrArg String.data h
  rw [String.data_append, String.data_append] at hd
  exact String.ext (List.append_cancel_left hd)

theorem headD_mem (l : List Delivery) (h : l ≠ []) : l.headD default ∈ l := by
  obtain ⟨a, t, rfl⟩ := List.exists_cons_of_ne_nil h
  exact List.mem_cons_self a t

theorem zoneMembers_ne_nil_of_mem (ds : List Delivery) (k : String)
    (h : k ∈ firstSeenKeys ds) : zoneMembers ds k ≠ [] := by
  induction ds with
  | nil => simp [firstSeenKeys] at h
  | cons d ds ih =>
      by_cases hz : hasZoneB d = true
      · rw [firstSeenKeys_cons_zone d ds hz] at h
        rcases List.mem_cons.1 h with rfl | h'
        · rw [zoneMembers_cons_self d ds hz]
          simp
        · have hne : zoneKey d ≠ k := by
            rcases List.mem_filter.1 h' with ⟨_, hbne⟩
            exact fun hc => (bne_iff_ne.1 hbne) hc.symm
          rw [zoneMembers_cons_ne d ds k hne]
          exact ih (List.mem_filter.1 h').1
      · rw [Bool.not_eq_true] at hz
        rw [firstSeenKeys_cons_noZone d ds hz] at h
        rw [zoneMembers_cons_noZone d ds k hz]
        exact ih h

theorem zoneMembers_subset (ds : List Delivery) (k : String) (d : Delivery)
    (h : d ∈ zoneMembers ds k) : d ∈ ds :=
  List.mem_of_mem_filter h

theorem zoneMembers_key (ds : List Delivery) (k : String) (d : Delivery)
    (h : d ∈ zoneMembers ds k) : zoneKey d = k := by
  rcases List.mem_filter.1 h with ⟨_, hp⟩
  rw [Bool.and_eq_true] at hp
  exact beq_iff_eq.1 hp.2

theorem noZoneStops_subset (ds : List Delivery) (d : Delivery)
    (h : d ∈ noZoneStops ds) : d ∈ ds :=
  List.mem_of_mem_filter h

theorem filter_eq_singleton_of_unique (l : List String) (p : String → Bool) (a : String)
    (hnd : l.Nodup) (hmem : a ∈ l) (huniq : ∀ b ∈ l, p b = true ↔ b = a) :
    l.filter p = [a] := by
  induction l with
  | nil => exact absurd hmem (List.not_mem_nil a)
  | cons x rest ih =>
      rw [List.nodup_cons] at hnd
      rw [List.filter_cons]
      rcases List.mem_cons.1 hmem with rfl | hmem'
      · rw [if_pos ((huniq a (List.mem_cons_self a rest)).2 rfl)]
        rw [List.filter_eq_nil_iff.2 fun b hb hp =>
          hnd.1 (((huniq b (List.mem_cons_of_mem a hb)).1 hp) ▸ hb)]
      · rw [if_neg (by
          intro hp
          exact hnd.1 (((huniq x (List.mem_cons_self x rest)).1 hp) ▸ hmem'))]
        exact ih hnd.2 hmem' fun b hb => huniq b (List.mem_cons_of_mem x hb)

/-- Counterexample to C5 as stated: a zoned stop followed by a zone-less
stop.  Grouping emits the zone-less single first, so the emitted order
`[B, A]` differs from the first-seen input order `[A, B]`. -/
def cexA : Delivery := ⟨"A", "a", 0, 0, "order", "x"⟩

def cexB : Delivery := ⟨"B", "b", 0, 0, "order", ""⟩

/-- The order C5 claims: each node at the position where its stop or
zone first occurs in the input. -/
def firstSeenOrderAux (ds : List Delivery) : List Delivery → List String → List Delivery
  | [], _ => []
  | d :: rest, seen =>
      if !hasZoneB d then d :: firstSeenOrderAux ds rest seen
      else if seen.contains (zoneKey d) then firstSeenOrderAux ds rest seen
      else specZoneNode ds (zoneKey d) :: firstSeenOrderAux ds rest (seen ++ [zoneKey d])

def specFirstSeenOrder (ds : List Delivery) : List Delivery := firstSeenOrderAux ds ds []

/-- The grouping output on `[A(zone x), B(no zone)]` is `[B, A]`, not the
first-seen order `[A, B]`: the claimed ordering is false. -/
theorem grouping_order_cex :
    ((buildNodes [cexA, cexB]).1).map (·.id) = ["B", "A"] ∧
      (specFirstSeenOrder [cexA, cexB]).map (·.id) = ["A", "B"] ∧
      (buildNodes [cexA, cexB]).1 ≠ specFirstSeenOrder [cexA, cexB] := by
  decide

/-- C5 amended: the emitted node list is the zone-less stops in input
order, followed by one node per zone (the stop itself for a one-member
zone, the proxy otherwise) in first-seen zone order — zone nodes always
come after all zone-less singles, not at the position of first
occurrence. -/
theorem buildNodes_order (ds : List Delivery) :
    (buildNodes ds).1 = noZoneStops ds ++ (firstSeenKeys ds).map (specZoneNode ds) := by
  rw [buildNodes_spec]

/-- C4: for a zone key with two or more members, grouping emits exactly
one proxy node (type `"group"`, identifier `"GROUP_" ++ key` — derived
from the normalized key alone) whose coordinates are the unweighted
means of the members' coordinates; a one-member zone passes its stop
through with no proxy for it, and a zone-less stop is always emitted as
itself.  `hty` reflects that `optimize_route` only ever builds stops of
type `"order"` or `"prospect"`. -/
theorem zone_grouping_proxy (ds : List Delivery) (k : String)
    (hty : ∀ d ∈ ds, d.type ≠ "group") :
    (2 ≤ (zoneMembers ds k).length →
      ∃ p : Delivery,
        (buildNodes ds).1.filter
          (fun nd => nd.type == "group" && nd.id == "GROUP_" ++ k) = [p] ∧
        p.id = "GROUP_" ++ k ∧
        p.lat = ((zoneMembers ds k).map (·.lat)).sum / ((zoneMembers ds k).length : ℚ) ∧
        p.lng = ((zoneMembers ds k).map (·.lng)).sum / ((zoneMembers ds k).length : ℚ)) ∧
    ((zoneMembers ds k).length = 1 →
      (zoneMembers ds k).headD default ∈ (buildNodes ds).1 ∧
      (buildNodes ds).1.filter
        (fun nd => nd.type == "group" && nd.id == "GROUP_" ++ k) = []) ∧
    (∀ d ∈ ds, pyStrip d.zona = "" → d ∈ (buildNodes ds).1) := by
  have hnodes : (buildNodes ds).1 =
      noZoneStops ds ++ (firstSeenKeys ds).map (specZoneNode ds) := by
    rw [buildNodes_spec]
  have hsingle : (noZoneStops ds).filter
      (fun nd => nd.type == "group" && nd.id == "GROUP_" ++ k) = [] := by
    refine List.filter_eq_nil_iff.2 fun d hd hp => ?_
    rw [Bool.and_eq_true, beq_iff_eq] at hp
    exact hty d (noZoneStops_subset ds d hd) hp.1
  have hpred : ∀ k', k' ∈ firstSeenKeys ds → k' ≠ k →
      ((specZoneNode ds k').type == "group" &&
        (specZoneNode ds k').id == "GROUP_" ++ k) = false := by
    intro k' hk' hne
    rw [specZoneNode]
    by_cases h1 : (zoneMembers ds k').length = 1
    · rw [if_pos h1]
      have hmem := headD_mem (zoneMembers ds k') (zoneMembers_ne_nil_of_mem ds k' hk')
      have hne' := hty _ (zoneMembers_subset ds k' _ hmem)
      rw [show (((zoneMembers ds k').headD default).type == "group") = false from
        beq_eq_false_iff_ne.2 hne', Bool.false_and]
    · rw [if_neg h1]
      have hid : ¬(("GROUP_" ++ k' : String) = "GROUP_" ++ k) :=
        fun hc => hne (group_id_inj k' k hc)
      simp [mkProxy, hid]
  refine ⟨?_, ?_, ?_⟩
  · intro h2
    have hkmem : k ∈ firstSeenKeys ds := by
      by_contra hc
      rw [zoneMembers_nil_of_not_firstSeen ds k hc] at h2
      simp at h2
    refine ⟨mkProxy k (zoneMembers ds k), ?_, rfl, rfl, rfl⟩
    rw [hnodes, List.filter_append, hsingle, List.nil_append, List.filter_map]
    rw [filter_eq_singleton_of_unique (firstSeenKeys ds) _ k (firstSeenKeys_nodup ds)
      hkmem ?_]
    · rw [List.map_cons, List.map_nil]
      congr 1
      rw [specZoneNode, if_neg (by omega)]
    · intro b hb
      constructor
      · intro hp
        by_contra hc
        rw [Function.comp_apply] at hp
        exact absurd hp (by rw [hpred b hb hc]; simp)
      · intro hbk
        subst hbk
        rw [Function.comp_apply, specZoneNode, if_neg (by omega)]
        simp [mkProxy]
  · intro h1
    have hkmem : k ∈ firstSeenKeys ds := by
      by_contra hc
      rw [zoneMembers_nil_of_not_firstSeen ds k hc] at h1
      simp at h1
    constructor
    · rw [hnodes]
      refine List.mem_append.2 (Or.inr (List.mem_map.2 ⟨k, hkmem, ?_⟩))
      rw [specZoneNode, if_pos h1]
    · rw [hnodes, List.filter_append, hsingle, List.nil_append, List.filter_map]
      rw [List.filter_eq_nil_iff.2 ?_]
      · rfl
      intro b hb hp
      rw [Function.comp_apply] at hp
      by_cases hbk : b = k
      · subst hbk
        rw [specZoneNode, if_pos h1] at hp
        have hmem := headD_mem (zoneMembers ds b) (zoneMembers_ne_nil_of_mem ds b hkmem)
        have := hty _ (zoneMembers_subset ds b _ hmem)
        rw [Bool.and_eq_true, beq_iff_eq] at hp
        exact this hp.1
      · rw [hpred b hb hbk] at hp
        simp at hp
  · intro d hd hzona
    rw [hnodes]
    refine List.mem_append.2 (Or.inl ?_)
    rw [noZoneStops, List.mem_filter]
    refine ⟨hd, ?_⟩
    simp [hasZoneB, hzona]

def wA : Delivery := ⟨"A", "a", 1, 0, "order", " C"⟩

def wB : Delivery := ⟨"B", "b", 3, 0, "order", "c"⟩

def wE : Delivery := ⟨"E", "e", 0, 0, "order", ""⟩

/-- Witness for C4: zones `" C"` and `"c"` normalize to the same key and
form a two-member zone. -/
theorem zone_grouping_proxy_witness :
    ∃ p : Delivery,
      (buildNodes [wE, wA, wB]).1.filter
        (fun nd => nd.type == "group" && nd.id == "GROUP_" ++ "c") = [p] ∧
      p.id = "GROUP_" ++ "c" ∧
      p.lat = ((zoneMembers [wE, wA, wB] "c").map (·.lat)).sum /
        ((zoneMembers [wE, wA, wB] "c").length : ℚ) ∧
      p.lng = ((zoneMembers [wE, wA, wB] "c").map (·.lng)).sum /
        ((zoneMembers [wE, wA, wB] "c").length : ℚ) :=
  (zone_grouping_proxy [wE, wA, wB] "c" (by decide)).1 (by decide)

/-! C2: multiset preservation of the expansion. -/

/-- The multiset of stop identifiers of a node list: depot and waypoint
excluded. -/
def stopIds (l : List DeliveryNode) : Multiset String :=
  ((l.filter (fun nd => !nd.is_depot && !nd.is_security_waypoint)).map (·.id) : List String)

theorem stopIds_append (a b : List DeliveryNode) :
    stopIds (a ++ b) = stopIds a + stopIds b := by
  rw [stopIds, List.filter_append, List.map_append, ← Multiset.coe_add]
  rfl

theorem stopIds_flatMap (l : List DeliveryNode) (f : DeliveryNode → List DeliveryNode) :
    stopIds (l.flatMap f) = (l.map fun x => stopIds (f x)).sum := by
  induction l with
  | nil => rfl
  | cons x rest ih =>
      rw [List.flatMap_cons, stopIds_append, ih, List.map_cons, List.sum_cons]

theorem stopIds_map_toNode (v : List Delivery) :
    stopIds (v.map toNode) = ((v.map (·.id) : List String) : Multiset String) := by
  rw [stopIds]
  rw [List.filter_eq_self.2 ?_]
  · rw [List.map_map]
    rfl
  · intro nd hnd
    rcases List.mem_map.1 hnd with ⟨d, _, rfl⟩
    rfl

theorem sum_singletons (l : List Delivery) (f : Delivery → String) :
    (l.map fun d => ({f d} : Multiset String)).sum = ((l.map f : List String) : Multiset String) := by
  induction l with
  | nil => rfl
  | cons d rest ih =>
      rw [List.map_cons, List.sum_cons, ih, List.map_cons]
      rw [← Multiset.cons_coe, ← Multiset.singleton_add]

theorem multiset_map_listSum (l : List (Multiset Delivery)) (f : Delivery → String) :
    Multiset.map f l.sum = (l.map (Multiset.map f)).sum := by
  induction l with
  | nil => rfl
  | cons s rest ih =>
      rw [List.sum_cons, Multiset.map_add, ih, List.map_cons, List.sum_cons]

/-- Every input stop is accounted for exactly once between the zone-less
singles and the per-zone member lists. -/
theorem partition_deliveries (ds : List Delivery) :
    (↑(noZoneStops ds) : Multiset Delivery) +
      ((firstSeenKeys ds).map fun k => (↑(zoneMembers ds k) : Multiset Delivery)).sum =
      (↑ds : Multiset Delivery) := by
  induction ds with
  | nil => rfl
  | cons d ds ih =>
      by_cases hz : hasZoneB d = true
      · rw [noZoneStops_cons_zone d ds hz, firstSeenKeys_cons_zone d ds hz]
        rw [List.map_cons, List.sum_cons, zoneMembers_cons_self d ds hz]
        have hmc : ((firstSeenKeys ds).filter (fun k => k != zoneKey d)).map
            (fun k => (↑(zoneMembers (d :: ds) k) : Multiset Delivery)) =
            ((firstSeenKeys ds).filter (fun k => k != zoneKey d)).map
            (fun k => (↑(zoneMembers ds k) : Multiset Delivery)) := by
          refine List.map_congr_left fun k hk => ?_
          rcases List.mem_filter.1 hk with ⟨_, hbne⟩
          rw [zoneMembers_cons_ne d ds k fun hc => (bne_iff_ne.1 hbne) hc.symm]
        rw [hmc]
        by_cases hkd : zoneKey d ∈ firstSeenKeys ds
        · have hperm : (firstSeenKeys ds).Perm
              (zoneKey d :: (firstSeenKeys ds).filter (fun k => k != zoneKey d)) := by
            have h1 := List.perm_cons_erase hkd
            have h2 : (firstSeenKeys ds).erase (zoneKey d) =
                (firstSeenKeys ds).filter (fun k => k != zoneKey d) := by
              rw [(firstSeenKeys_nodup ds).erase_eq_filter]
            rw [h2] at h1
            exact h1
          have hsum := (hperm.map fun k => (↑(zoneMembers ds k) : Multiset Delivery)).sum_eq
          have hc1 : ((d :: ds : List Delivery) : Multiset Delivery) = {d} + ↑ds := by
            rw [← Multiset.cons_coe, ← Multiset.singleton_add]
          have hc2 : ((d :: zoneMembers ds (zoneKey d) : List Delivery) : Multiset Delivery) =
              {d} + ↑(zoneMembers ds (zoneKey d)) := by
            rw [← Multiset.cons_coe, ← Multiset.singleton_add]
          rw [hc1, hc2, ← ih, hsum, List.map_cons, List.sum_cons]
          abel
        · rw [zoneMembers_nil_of_not_firstSeen ds (zoneKey d) hkd]
          have hfe : (firstSeenKeys ds).filter (fun k => k != zoneKey d) =
              firstSeenKeys ds := by
            refine List.filter_eq_self.2 fun k hk => ?_
            exact bne_iff_ne.2 fun hc => hkd (hc ▸ hk)
          have hc1 : ((d :: ds : List Delivery) : Multiset Delivery) = {d} + ↑ds := by
            rw [← Multiset.cons_coe, ← Multiset.singleton_add]
          rw [hfe, hc1, ← ih]
          rw [show ((d :: ([] : List Delivery) : List Delivery) : Multiset Delivery) =
            {d} from rfl]
          abel
      · rw [Bool.not_eq_true] at hz
        rw [noZoneStops_cons_noZone d ds hz, firstSeenKeys_cons_noZone d ds hz]
        have hmc : (firstSeenKeys ds).map
            (fun k => (↑(zoneMembers (d :: ds) k) : Multiset Delivery)) =
            (firstSeenKeys ds).map
            (fun k => (↑(zoneMembers ds k) : Multiset Delivery)) := by
          refine List.map_congr_left fun k _ => ?_
          rw [zoneMembers_cons_noZone d ds k hz]
        have hc1 : ((d :: ds : List Delivery) : Multiset Delivery) = {d} + ↑ds := by
          rw [← Multiset.cons_coe, ← Multiset.singleton_add]
        have hc3 : ((d :: noZoneStops ds : List Delivery) : Multiset Delivery) =
            {d} + ↑(noZoneStops ds) := by
          rw [← Multiset.cons_coe, ← Multiset.singleton_add]
        rw [hmc, hc1, hc3, ← ih]
        abel

theorem buildNodes_fst (ds : List Delivery) :
    (buildNodes ds).1 = noZoneStops ds ++ (firstSeenKeys ds).map (specZoneNode ds) := by
  rw [buildNodes_spec]

theorem buildNodes_snd (ds : List Delivery) :
    (buildNodes ds).2 = applyWrites [] (buildWrites ds) := by
  rw [buildNodes_spec]

theorem mapGet_buildNodes (ds : List Delivery) (key : String) :
    mapGet (buildNodes ds).2 key =
      (buildWrites ds).foldl (fun acc w => if w.1 = key then some w.2 else acc) none := by
  rw [buildNodes_snd, mapGet_applyWrites]
  rfl

/-- Under the no-collision hypothesis, every map write keyed by the id
of an input stop carries a one-element list with that id. -/
theorem buildWrites_key_plain (ds : List Delivery)
    (hids : ∀ d ∈ ds, ∀ k, 2 ≤ (zoneMembers ds k).length → d.id ≠ "GROUP_" ++ k)
    (x : Delivery) (hx : x ∈ ds) :
    ∀ w ∈ buildWrites ds, w.1 = x.id → w.2.map (·.id) = [x.id] := by
  intro w hw hk
  rcases List.mem_append.1 hw with hw' | hw'
  · rcases List.mem_map.1 hw' with ⟨d', _, rfl⟩
    rw [List.map_cons, List.map_nil, show (d'.id : String) = x.id from hk]
  · rcases List.mem_map.1 hw' with ⟨k', hk', rfl⟩
    rw [groupWrite] at hk ⊢
    by_cases h1 : (zoneMembers ds k').length = 1
    · rw [if_pos h1] at hk ⊢
      rcases List.length_eq_one.1 h1 with ⟨a, ha⟩
      rw [ha] at hk ⊢
      rw [List.map_cons, List.map_nil]
      rw [show (a.id : String) = x.id from hk]
    · rw [if_neg h1] at hk
      have hlen : 2 ≤ (zoneMembers ds k').length := by
        have hne := zoneMembers_ne_nil_of_mem ds k' hk'
        have : (zoneMembers ds k').length ≠ 0 := fun hc => hne (List.length_eq_zero.1 hc)
        omega
      exact absurd hk.symm (hids x hx k' hlen)

/-- Under the no-collision hypothesis, every map write keyed by a
multi-member zone's proxy id carries exactly that zone's member list. -/
theorem buildWrites_key_group (ds : List Delivery)
    (hids : ∀ d ∈ ds, ∀ k, 2 ≤ (zoneMembers ds k).length → d.id ≠ "GROUP_" ++ k)
    (k : String) (h2 : 2 ≤ (zoneMembers ds k).length) :
    ∀ w ∈ buildWrites ds, w.1 = "GROUP_" ++ k → w.2 = zoneMembers ds k := by
  intro w hw hk
  rcases List.mem_append.1 hw with hw' | hw'
  · rcases List.mem_map.1 hw' with ⟨d', hd', rfl⟩
    exact absurd hk (hids d' (noZoneStops_subset ds d' hd') k h2)
  · rcases List.mem_map.1 hw' with ⟨k', hk', rfl⟩
    rw [groupWrite] at hk ⊢
    by_cases h1 : (zoneMembers ds k').length = 1
    · rw [if_pos h1] at hk
      have hmem := headD_mem (zoneMembers ds k') (zoneMembers_ne_nil_of_mem ds k' hk')
      exact absurd hk (hids _ (zoneMembers_subset ds k' _ hmem) k h2)
    · rw [if_neg h1] at hk ⊢
      rw [group_id_inj k' k hk]

theorem expandNode_toNode (m : List (String × List Delivery)) (d : Delivery) :
    expandNode m (toNode d) =
      match mapGet m d.id with
      | some items => items.map toNode
      | none => [toNode d] := rfl

/-- The multiset of expanded stop ids contributed by the full solver
node list equals the multiset of input stop ids. -/
theorem contrib_sum (ds : List Delivery)
    (hids : ∀ d ∈ ds, ∀ k, 2 ≤ (zoneMembers ds k).length → d.id ≠ "GROUP_" ++ k) :
    (((buildNodes ds).1).map fun nd =>
        stopIds (expandNode (buildNodes ds).2 (toNode nd))).sum =
      ((ds.map (·.id) : List String) : Multiset String) := by
  have hplain : ∀ x ∈ ds, (∃ w ∈ buildWrites ds, w.1 = x.id) →
      stopIds (expandNode (buildNodes ds).2 (toNode x)) = ({x.id} : Multiset String) := by
    intro x hx hex
    obtain ⟨v, hv, hvid⟩ := writeFold_prop (buildWrites ds) x.id
      (fun v => v.map (·.id) = [x.id]) none (buildWrites_key_plain ds hids x hx) hex
    rw [expandNode_toNode, mapGet_buildNodes, hv]
    rw [stopIds_map_toNode, hvid]
    rfl
  rw [buildNodes_fst, List.map_append, List.sum_append]
  have hpart1 : ((noZoneStops ds).map fun nd =>
      stopIds (expandNode (buildNodes ds).2 (toNode nd))).sum =
      (((noZoneStops ds).map (·.id) : List String) : Multiset String) := by
    rw [List.map_congr_left (fun d hd => hplain d (noZoneStops_subset ds d hd)
      ⟨(d.id, [d]), List.mem_append.2 (Or.inl (List.mem_map.2 ⟨d, hd, rfl⟩)), rfl⟩)]
    exact sum_singletons (noZoneStops ds) (·.id)
  have hpart2 : (((firstSeenKeys ds).map (specZoneNode ds)).map fun nd =>
      stopIds (expandNode (buildNodes ds).2 (toNode nd))).sum =
      ((firstSeenKeys ds).map fun k =>
        (((zoneMembers ds k).map (·.id) : List String) : Multiset String)).sum := by
    rw [List.map_map]
    congr 1
    refine List.map_congr_left fun k hk => ?_
    rw [Function.comp_apply]
    have hne := zoneMembers_ne_nil_of_mem ds k hk
    by_cases h1 : (zoneMembers ds k).length = 1
    · rcases List.length_eq_one.1 h1 with ⟨a, ha⟩
      have hspec : specZoneNode ds k = a := by
        rw [specZoneNode, if_pos h1, ha]
        rfl
      have hamem : a ∈ ds := zoneMembers_subset ds k a (by rw [ha]; exact List.mem_cons_self a [])
      rw [hspec, hplain a hamem ⟨groupWrite (k, zoneMembers ds k),
        List.mem_append.2 (Or.inr (List.mem_map.2 ⟨k, hk, rfl⟩)), by
          rw [groupWrite, if_pos h1, ha]
          rfl⟩]
      rw [ha]
      rfl
    · have h2 : 2 ≤ (zoneMembers ds k).length := by
        have : (zoneMembers ds k).length ≠ 0 := fun hc => hne (List.length_eq_zero.1 hc)
        omega
      have hspec : specZoneNode ds k = mkProxy k (zoneMembers ds k) := by
        rw [specZoneNode, if_neg h1]
      obtain ⟨v, hv, hvm⟩ := writeFold_prop (buildWrites ds) ("GROUP_" ++ k)
        (fun v => v = zoneMembers ds k) none (buildWrites_key_group ds hids k h2)
        ⟨groupWrite (k, zoneMembers ds k),
          List.mem_append.2 (Or.inr (List.mem_map.2 ⟨k, hk, rfl⟩)), by
            rw [groupWrite, if_neg h1]⟩
      rw [hspec]
      rw [show expandNode (buildNodes ds).2 (toNode (mkProxy k (zoneMembers ds k))) =
        v.map toNode by
          rw [expandNode_toNode, mapGet_buildNodes]
          rw [show (mkProxy k (zoneMembers ds k)).id = "GROUP_" ++ k from rfl, hv]]
      rw [hvm, stopIds_map_toNode]
  rw [hpart1, hpart2]
  have hmapped := congrArg (Multiset.map (·.id)) (partition_deliveries ds)
  rw [Multiset.map_add, Multiset.map_coe, multiset_map_listSum, List.map_map] at hmapped
  rw [show ((firstSeenKeys ds).map (Multiset.map (·.id) ∘ fun k =>
      (↑(zoneMembers ds k) : Multiset Delivery))) =
    ((firstSeenKeys ds).map fun k =>
      (((zoneMembers ds k).map (·.id) : List String) : Multiset String)) by
      refine List.map_congr_left fun k _ => ?_
      rw [Function.comp_apply, Multiset.map_coe]] at hmapped
  rw [Multiset.map_coe] at hmapped
  exact hmapped

def cexG : Delivery := ⟨"GROUP_x", "g", 0, 0, "order", ""⟩

def cexP : Delivery := ⟨"P", "p", 0, 0, "order", "x"⟩

def cexQ : Delivery := ⟨"Q", "q", 0, 0, "order", "x"⟩

def cexDepotN : DeliveryNode := ⟨"DEPOT", "w", 0, 0, true, false⟩

def cexWpN : DeliveryNode := ⟨"WP", "h", 0, 0, false, true⟩

/-- Counterexample to C2 as stated: a zone-less stop whose id is
`"GROUP_x"` collides with the proxy id of the two-member zone `"x"`.
Its map entry is overwritten by the proxy's members, so expansion yields
`{P, Q, P, Q}` instead of `{GROUP_x, P, Q}`. -/
theorem expansion_ids_cex :
    stopIds (expandRoute (buildNodes [cexG, cexP, cexQ]).2
        (cexDepotN :: cexWpN :: (buildNodes [cexG, cexP, cexQ]).1.map toNode)) =
      ((["P", "Q", "P", "Q"] : List String) : Multiset String) ∧
    stopIds (expandRoute (buildNodes [cexG, cexP, cexQ]).2
        (cexDepotN :: cexWpN :: (buildNodes [cexG, cexP, cexQ]).1.map toNode)) ≠
      (([cexG, cexP, cexQ].map (·.id) : List String) : Multiset String) := by
  decide

/-- C2 amended: provided no input stop's identifier equals `"GROUP_"`
followed by the normalized key of a zone with two or more members,
expanding any solved route (depot, waypoint, then any permutation of the
solver nodes) yields exactly the multiset of input stop identifiers —
no loss, no duplication, no invention. -/
theorem expansion_preserves_ids (ds : List Delivery) (dn wn : DeliveryNode)
    (r : List Delivery)
    (hdn : dn.is_depot = true) (hwn : wn.is_security_waypoint = true)
    (hids : ∀ d ∈ ds, ∀ k, 2 ≤ (zoneMembers ds k).length → d.id ≠ "GROUP_" ++ k)
    (hperm : r.Perm (buildNodes ds).1) :
    stopIds (expandRoute (buildNodes ds).2 (dn :: wn :: r.map toNode)) =
      ((ds.map (·.id) : List String) : Multiset String) := by
  rw [expandRoute, List.flatMap_cons, List.flatMap_cons, stopIds_append, stopIds_append]
  have hdn0 : stopIds (expandNode (buildNodes ds).2 dn) = 0 := by
    rw [expandNode, if_pos (by rw [hdn]; rfl)]
    simp [stopIds, hdn]
  have hwn0 : stopIds (expandNode (buildNodes ds).2 wn) = 0 := by
    rw [expandNode, if_pos (by rw [hwn, Bool.or_true])]
    simp [stopIds, hwn]
  rw [hdn0, hwn0, zero_add, zero_add]
  rw [stopIds_flatMap, List.map_map]
  exact ((hperm.map fun d =>
    stopIds (expandNode (buildNodes ds).2 (toNode d))).sum_eq).trans (contrib_sum ds hids)

/-- Witness for C2 (amended) on the one-stop input `[wA]`. -/
theorem expansion_preserves_ids_witness :
    stopIds (expandRoute (buildNodes [wA]).2
        (cexDepotN :: cexWpN :: ((buildNodes [wA]).1.map toNode))) =
      (([wA].map (·.id) : List String) : Multiset String) :=
  expansion_preserves_ids [wA] cexDepotN cexWpN (buildNodes [wA]).1 rfl rfl
    (fun _ _ k h2 => by
      rw [zoneMembers] at h2
      have hle := List.length_filter_le (fun d => hasZoneB d && (zoneKey d == k)) [wA]
      have hone : ([wA] : List Delivery).length = 1 := rfl
      omega)
    (List.Perm.refl _)

/-! C3: the one-stop-plus-waypoint scenario and its visit numbers. -/

theorem buildNodes_single (d : Delivery) : buildNodes [d] = ([d], [(d.id, [d])]) := by
  by_cases hz : pyStrip d.zona = ""
  · rw [buildNodes, groupDeliveries, List.foldl_cons, List.foldl_nil]
    rw [show groupStep ([], []) d = ([], [d]) by
      rw [groupStep, if_neg (by simp [hz])]
      rfl]
    rw [List.foldl_cons, List.foldl_nil, List.foldl_nil]
    rfl
  · rw [buildNodes, groupDeliveries, List.foldl_cons, List.foldl_nil]
    rw [show groupStep ([], []) d = ([(zoneKey d, [d])], []) by
      rw [groupStep, if_pos hz]
      rfl]
    rw [List.foldl_nil, List.foldl_cons, List.foldl_nil]
    rw [nodeStep]
    rw [if_pos (by rfl)]
    rfl

theorem extractLoop_fst_indep (nxt : Nat → Nat) (m : List (List Int)) (numNodes : Nat) :
    ∀ (fuel idx : Nat),
      (extractLoop nxt m numNodes fuel idx).1 = (extractLoop nxt [] numNodes fuel idx).1 := by
  intro fuel
  induction fuel with
  | zero => intro idx; rfl
  | succ f ih =>
      intro idx
      rw [extractLoop, extractLoop]
      by_cases h : idx < numNodes
      · rw [if_pos h, if_pos h]
        show idx :: (extractLoop nxt m numNodes f (nxt idx)).1 =
          idx :: (extractLoop nxt [] numNodes f (nxt idx)).1
        rw [ih]
      · rw [if_neg h, if_neg h]

theorem extract_three (nxt : Nat → Nat) (m : List (List Int)) (hc : nxt 0 = 1)
    (hfeas : feasibleAssignment 3 nxt) : (extractLoop nxt m 3 4 0).1 = [0, 1, 2] := by
  rw [extractLoop_fst_indep]
  rw [feasibleAssignment] at hfeas
  rw [extractLoop_fst_indep] at hfeas
  have hseq : (extractLoop nxt [] 3 4 0).1 =
      0 :: 1 :: (extractLoop nxt [] 3 2 (nxt 1)).1 := by
    rw [extractLoop, if_pos (by omega), hc]
    show 0 :: (extractLoop nxt [] 3 3 1).1 = 0 :: 1 :: (extractLoop nxt [] 3 2 (nxt 1)).1
    rw [extractLoop, if_pos (by omega)]
  rw [hseq] at hfeas ⊢
  by_cases h2 : nxt 1 < 3
  · rw [show (extractLoop nxt [] 3 2 (nxt 1)).1 =
      nxt 1 :: (extractLoop nxt [] 3 1 (nxt (nxt 1))).1 by
        rw [extractLoop, if_pos h2]] at hfeas ⊢
    by_cases h3 : nxt (nxt 1) < 3
    · rw [show (extractLoop nxt [] 3 1 (nxt (nxt 1))).1 = [nxt (nxt 1)] by
        rw [extractLoop, if_pos h3]
        rfl] at hfeas
      have hlen := hfeas.length_eq
      simp [List.length_range] at hlen
    · rw [show (extractLoop nxt [] 3 1 (nxt (nxt 1))).1 = [] by
        rw [extractLoop, if_neg h3]] at hfeas ⊢
      have h2mem : 2 ∈ [0, 1, nxt 1] := hfeas.mem_iff.2 (by decide)
      have : nxt 1 = 2 := by
        rcases List.mem_cons.1 h2mem with hcc | h2'
        · exact absurd hcc (by decide)
        rcases List.mem_cons.1 h2' with hcc | h2''
        · exact absurd hcc (by decide)
        rcases List.mem_cons.1 h2'' with hcc | h2'''
        · exact hcc.symm
        · exact absurd h2''' (List.not_mem_nil 2)
      rw [this]
  · rw [show (extractLoop nxt [] 3 2 (nxt 1)).1 = [] by
      rw [extractLoop, if_neg h2]] at hfeas
    have hlen := hfeas.length_eq
    simp [List.length_range] at hlen

/-- Counterexample to C3 as stated: on the expanded route
`[depot, waypoint, stop]` the response loop (lines 879-895) increments
`visit_num` for every non-depot node, so the waypoint receives visit
number 1 and the stop receives 2 — not "waypoint none, stop 1". -/
theorem visit_numbers_cex :
    (buildOptimizedOrder [exDepot, exWaypoint, exStop]).map (fun p => (p.1.id, p.2)) =
      [("DEPOT", none), ("WAYPOINT_HUICHAPAN", some 1), ("A", some 2)] ∧
    (buildOptimizedOrder [exDepot, exWaypoint, exStop]).map (fun p => (p.1.id, p.2)) ≠
      [("DEPOT", none), ("WAYPOINT_HUICHAPAN", none), ("A", some 1)] := by
  decide

/-- C3 amended: with a waypoint and exactly one stop, any successful
solve expands to `[depot, waypoint, stop]`; in the response the visit
numbers go to every non-depot node, so the waypoint gets 1 and the stop
gets 2, while the Google-Sheets update path skips depot and waypoint and
gives the stop visit number 1. -/
theorem scenario_one_stop (d : Delivery) (depot wp : DeliveryNode)
    (m : List (List Int)) (nxt : Nat → Nat) (res : OptimizationResult)
    (hdep : depot.is_depot = true) (hwp : wp.is_security_waypoint = true)
    (hwp2 : wp.is_depot = false) (hc : nxt 0 = 1) (hfeas : feasibleAssignment 3 nxt)
    (hres : solve depot (some wp) ((buildNodes [d]).1.map toNode) m (some nxt) = some res)
    (hok : res.success = true) :
    expandRoute (buildNodes [d]).2 res.ordered_nodes = [depot, wp, toNode d] ∧
    (buildOptimizedOrder (expandRoute (buildNodes [d]).2 res.ordered_nodes)).map
        (fun p => (p.1.id, p.2)) = [(depot.id, none), (wp.id, some 1), (d.id, some 2)] ∧
    sheetsUpdates (expandRoute (buildNodes [d]).2 res.ordered_nodes) = [(d.id, 1)] := by
  have hnodes1 : (buildNodes [d]).1 = [d] := by rw [buildNodes_single]
  have hnodes2 : (buildNodes [d]).2 = [(d.id, [d])] := by rw [buildNodes_single]
  rw [hnodes1] at hres
  rw [solve.eq_def] at hres
  by_cases hdbg : m.length ≠ 0 ∧ (m.getD 0 []).length = 0
  · rw [if_pos hdbg] at hres
    exact absurd hres (by simp)
  rw [if_neg hdbg] at hres
  have hn3 : (allNodes depot (some wp) ([d].map toNode)).length = 3 := by
    rw [allNodes_waypoint_length]
    rfl
  by_cases hmm : m.length ≠ (allNodes depot (some wp) ([d].map toNode)).length
  · rw [if_pos hmm] at hres
    rw [Option.some_inj] at hres
    rw [← hres] at hok
    simp at hok
  rw [if_neg hmm, if_neg (by omega)] at hres
  rw [Option.some_inj] at hres
  have hordered : res.ordered_nodes = [depot, wp, toNode d] := by
    rw [← hres]
    show ((extractLoop nxt m (allNodes depot (some wp) ([d].map toNode)).length
      ((allNodes depot (some wp) ([d].map toNode)).length + 1) 0).1.map
        fun k => (allNodes depot (some wp) ([d].map toNode)).getD k depot) =
      [depot, wp, toNode d]
    rw [hn3, extract_three nxt m hc hfeas]
    rfl
  have hexp : expandRoute (buildNodes [d]).2 res.ordered_nodes = [depot, wp, toNode d] := by
    rw [hordered, hnodes2, expandRoute]
    rw [List.flatMap_cons, List.flatMap_cons, List.flatMap_cons, List.flatMap_nil]
    rw [show expandNode [(d.id, [d])] depot = [depot] by
      rw [expandNode, if_pos (by rw [hdep]; rfl)]]
    rw [show expandNode [(d.id, [d])] wp = [wp] by
      rw [expandNode, if_pos (by rw [hwp, Bool.or_true])]]
    rw [show expandNode [(d.id, [d])] (toNode d) = [toNode d] by
      rw [expandNode_toNode]
      rw [show mapGet [(d.id, [d])] d.id = some [d] by
        rw [mapGet, if_pos rfl]]
      rfl]
    rfl
  refine ⟨hexp, ?_, ?_⟩
  · rw [hexp, buildOptimizedOrder]
    rw [List.foldl_cons, List.foldl_cons, List.foldl_cons, List.foldl_nil]
    rw [show (if depot.is_depot = true then
        (([] : List (DeliveryNode × Option Nat)) ++ [(depot, none)], 0)
        else ([] ++ [(depot, some (0 + 1))], 0 + 1)) = ([(depot, none)], 0) by
      rw [if_pos hdep]
      rfl]
    rw [show (if wp.is_depot = true then
        (([(depot, none)] : List (DeliveryNode × Option Nat)) ++ [(wp, none)], 0)
        else ([(depot, none)] ++ [(wp, some (0 + 1))], 0 + 1)) =
      ([(depot, none), (wp, some 1)], 1) by
      rw [if_neg (by rw [hwp2]; exact Bool.false_ne_true)]
      rfl]
    rfl
  · rw [hexp, sheetsUpdates]
    rw [List.foldl_cons, List.foldl_cons, List.foldl_cons, List.foldl_nil]
    rw [show (if (!depot.is_depot && !depot.is_security_waypoint) = true then
        ((([] : List (String × Nat)) ++ [(depot.id, 1)]), 1 + 1) else (([] : List (String × Nat)), 1)) =
      (([] : List (String × Nat)), 1) by
      rw [if_neg (by rw [hdep]; simp)]]
    rw [show (if (!wp.is_depot && !wp.is_security_waypoint) = true then
        ((([] : List (String × Nat)) ++ [(wp.id, 1)]), 1 + 1) else (([] : List (String × Nat)), 1)) =
      (([] : List (String × Nat)), 1) by
      rw [if_neg (by rw [hwp]; simp)]]
    rfl

def dW : Delivery := ⟨"A", "a", 2, 2, "order", ""⟩

/-- Witness for C3 (amended) on the concrete one-stop scenario. -/
theorem scenario_one_stop_witness :
    expandRoute (buildNodes [dW]).2 exSolveResult.ordered_nodes =
      [exDepot, exWaypoint, toNode dW] ∧
    (buildOptimizedOrder (expandRoute (buildNodes [dW]).2 exSolveResult.ordered_nodes)).map
        (fun p => (p.1.id, p.2)) =
      [(exDepot.id, none), (exWaypoint.id, some 1), (dW.id, some 2)] ∧
    sheetsUpdates (expandRoute (buildNodes [dW]).2 exSolveResult.ordered_nodes) =
      [(dW.id, 1)] :=
  scenario_one_stop dW exDepot exWaypoint (zeros 3 3) (fun i => i + 1) exSolveResult
    rfl rfl rfl rfl
    (by
      show (extractLoop (fun i => i + 1) [] 3 (3 + 1) 0).1.Perm (List.range 3)
      decide)
    (by rfl) rfl

end Hidalgo
